import Mathlib

/-!
Shallow embedding of the timetable-weaver generation engine
(`src/client/src/util/timetable/index.ts`) and verification of the
frozen claims about it.

Conventions used throughout:

* JS `number` values that stay integral are modelled as `Nat`/`Int`;
  the fitness and conflict counts, which use the literal `0.5`, are
  modelled as `ℚ` (all arithmetic in the source on these values is
  exact in binary floating point, so `ℚ` is faithful).
* The JS object `schedule` keyed by class name is modelled as an
  association list `List (String × Grid)`; a JS object has at most one
  entry per key, so reads take the first matching entry and updates
  rewrite every matching entry.
* `Math.random()` is modelled as an explicit stream of rationals
  (`Rng`); every call site of the source consumes one draw in the same
  order as the source.  `Math.floor(Math.random() * n)` becomes
  `randFloor`, clamped into `[0, n)` exactly as the real values are.
* `Math.exp` is not computable over `ℚ`; the scheduler takes the
  function modelling it as an explicit parameter `mexp`.  Theorems
  about the search hold for every such function.
-/

namespace TW

/-- Number of days, constant `DAYS = 5` in the source. -/
abbrev DAYS : Nat := 5

/-- Number of periods per day, constant `PERIODS_PER_DAY = 6` in the source. -/
abbrev PERIODS_PER_DAY : Nat := 6

/-- A time slot `{day, period}`. -/
structure TimeSlot where
  day : Nat
  period : Nat
deriving DecidableEq, Repr

/-- Bit-packed availability of a teacher: one machine word per day
(class `Availability` of the source). -/
structure Availability where
  days : Nat
  periodsPerDay : Nat
  buffer : List Nat
deriving DecidableEq, Repr

namespace Availability

/-- `Availability.get`: `(this.buffer[day] & (1 << period)) != 0`. -/
def get (a : Availability) (day period : Nat) : Bool :=
  (a.buffer.getD day 0) &&& (1 <<< period) != 0

/-- `Availability.getAvailableSlots`: nested loops over `day < days`
and `period < periodsPerDay`, pushing every slot with `get = true`. -/
def getAvailableSlots (a : Availability) : List TimeSlot :=
  (List.range a.days).flatMap fun day =>
    ((List.range a.periodsPerDay).filter fun period => a.get day period).map
      fun period => ⟨day, period⟩

end Availability

/-- A teacher: a name and an availability (class `Teacher`). -/
structure Teacher where
  name : String
  availability : Availability
deriving DecidableEq, Repr

/-- `Teacher.isAvailable` delegates to `Availability.get`. -/
def Teacher.isAvailable (t : Teacher) (day period : Nat) : Bool :=
  t.availability.get day period

/-- `Teacher.getAvailableSlots` delegates to `Availability.getAvailableSlots`. -/
def Teacher.getAvailableSlots (t : Teacher) : List TimeSlot :=
  t.availability.getAvailableSlots

/-- A lesson: subject name, teacher and weekly period count (class `Lesson`). -/
structure Lesson where
  name : String
  teacher : Teacher
  periodsPerWeek : Nat
deriving DecidableEq, Repr

/-- Default lesson value standing in for out-of-range JS array reads;
never observed on the executions the theorems talk about. -/
def defLesson : Lesson := ⟨"", ⟨"", ⟨0, 0, []⟩⟩, 0⟩

/-- A school class: a name and its lessons (class `Class`). -/
structure Class where
  name : String
  lessons : List Lesson
deriving DecidableEq, Repr

/-- `Class.getTotalPeriodsPerWeek`: sum of `periodsPerWeek` over the lessons. -/
def Class.getTotalPeriodsPerWeek (c : Class) : Nat :=
  c.lessons.foldl (fun sum l => sum + l.periodsPerWeek) 0

/-- One class's 2-D grid of cells: `DAYS` rows of `PERIODS_PER_DAY` cells. -/
abbrev Grid := List (List (Option Lesson))

/-- The schedule object, keyed by class name. -/
abbrev Schedule := List (String × Grid)

/-- The all-empty grid a class starts from. -/
def emptyGrid : Grid :=
  List.replicate DAYS (List.replicate PERIODS_PER_DAY none)

/-- Read `schedule[name]`; a JS object has one entry per key, so the
first matching entry is the entry. -/
def lookupD (s : Schedule) (k : String) : Grid :=
  ((s.find? fun e => e.1 == k).map Prod.snd).getD emptyGrid

/-- Write `schedule[name] = g`: rewrite every entry with that key
(a JS object has at most one). -/
def updA : Schedule → String → Grid → Schedule
  | [], _, _ => []
  | e :: s, k, g => (if e.1 == k then (k, g) else e) :: updA s k g

/-- Read cell `schedule[name][day][period]`. -/
def getCell (g : Grid) (day period : Nat) : Option Lesson :=
  (g.getD day []).getD period none

/-- Write cell `schedule[name][day][period] = v`. -/
def setCell (g : Grid) (day period : Nat) (v : Option Lesson) : Grid :=
  g.set day ((g.getD day []).set period v)

/-! ### Availability: `getAvailableSlots` lists exactly the set bits, in order (C7) -/

/-- Strict lexicographic order on time slots: earlier day, or same day
and earlier period. -/
def slotLt (s t : TimeSlot) : Prop :=
  s.day < t.day ∨ (s.day = t.day ∧ s.period < t.period)

theorem Availability.get_eq_testBit (a : Availability) (day period : Nat) :
    a.get day period = (a.buffer.getD day 0).testBit period := by
  simp only [Availability.get, Nat.one_shiftLeft, Nat.and_two_pow]
  cases h : (a.buffer.getD day 0).testBit period <;>
    simp [h, (Nat.pos_pow_of_pos period (by norm_num) : 0 < 2 ^ period).ne']

theorem Availability.get_bounds (a : Availability)
    (hlen : a.buffer.length = a.days)
    (hbits : ∀ w ∈ a.buffer, w < 2 ^ a.periodsPerDay)
    {day period : Nat} (h : a.get day period = true) :
    day < a.days ∧ period < a.periodsPerDay := by
  rw [Availability.get_eq_testBit] at h
  constructor
  · by_contra hd
    rw [List.getD_eq_default _ _ (by omega)] at h
    simp [Nat.zero_testBit] at h
  · by_contra hp
    rcases lt_or_ge day a.buffer.length with hlt | hge
    · have hw : a.buffer.getD day 0 ∈ a.buffer := by
        rw [List.getD_eq_getElem _ _ hlt]; exact List.getElem_mem hlt
      have hlt2 : a.buffer.getD day 0 < 2 ^ period :=
        lt_of_lt_of_le (hbits _ hw) (Nat.pow_le_pow_right (by norm_num) (by omega))
      rw [Nat.testBit_lt_two_pow hlt2] at h
      exact absurd h (by simp)
    · rw [List.getD_eq_default _ _ hge] at h
      simp [Nat.zero_testBit] at h

theorem Availability.mem_getAvailableSlots (a : Availability) (day period : Nat) :
    (⟨day, period⟩ : TimeSlot) ∈ a.getAvailableSlots ↔
      day < a.days ∧ period < a.periodsPerDay ∧ a.get day period = true := by
  simp only [Availability.getAvailableSlots, List.mem_flatMap, List.mem_map,
    List.mem_filter, List.mem_range]
  constructor
  · rintro ⟨d, hd, p, ⟨hp, hg⟩, heq⟩
    cases heq
    exact ⟨hd, hp, hg⟩
  · rintro ⟨hd, hp, hg⟩
    exact ⟨day, hd, period, ⟨hp, hg⟩, rfl⟩

theorem pairwise_slotLt_flatMap (l : List Nat) (f : Nat → List TimeSlot)
    (hl : l.Pairwise (· < ·))
    (hf : ∀ d, (f d).Pairwise slotLt)
    (hday : ∀ d s, s ∈ f d → s.day = d) :
    (l.flatMap f).Pairwise slotLt := by
  induction l with
  | nil => simp
  | cons d ds ih =>
    rw [List.flatMap_cons, List.pairwise_append]
    refine ⟨hf d, ih hl.of_cons, ?_⟩
    intro x hx y hy
    rw [List.mem_flatMap] at hy
    obtain ⟨d', hd', hy⟩ := hy
    left
    rw [hday d x hx, hday d' y hy]
    exact (List.pairwise_cons.mp hl).1 d' hd'

theorem Availability.pairwise_getAvailableSlots (a : Availability) :
    a.getAvailableSlots.Pairwise slotLt := by
  refine pairwise_slotLt_flatMap _ _ (List.pairwise_lt_range _) (fun d => ?_) ?_
  · refine List.Pairwise.map (S := slotLt) _ (fun p q h => Or.inr ⟨rfl, h⟩) ?_
    exact (List.pairwise_lt_range _).filter _
  · intro d s hs
    simp only [List.mem_map] at hs
    obtain ⟨p, _, hp⟩ := hs
    cases hp; rfl

/-- C7: for every Availability value (satisfying the data-model
invariant: one word per day, no bits at or above `periodsPerDay`),
`getAvailableSlots()` returns exactly the `(day, period)` pairs for
which `get(day, period)` is true, in lexicographic `(day, period)`
order, with no duplicates. -/
theorem C7_availableSlots_exact (a : Availability)
    (hlen : a.buffer.length = a.days)
    (hbits : ∀ w ∈ a.buffer, w < 2 ^ a.periodsPerDay) :
    (∀ day period : Nat,
        (⟨day, period⟩ : TimeSlot) ∈ a.getAvailableSlots ↔ a.get day period = true)
    ∧ a.getAvailableSlots.Pairwise slotLt
    ∧ a.getAvailableSlots.Nodup := by
  refine ⟨fun day period => ?_, a.pairwise_getAvailableSlots,
    a.pairwise_getAvailableSlots.imp fun {s t} h heq => ?_⟩
  · rw [Availability.mem_getAvailableSlots]
    constructor
    · rintro ⟨_, _, h⟩; exact h
    · intro h
      obtain ⟨h1, h2⟩ := a.get_bounds hlen hbits h
      exact ⟨h1, h2, h⟩
  · subst heq
    rcases h with h | ⟨_, h⟩ <;> exact absurd h (lt_irrefl _)

/-! ### Schedule grid, compaction and gap detection -/

/-- The timetable: the classes and the per-class-name schedule object. -/
structure Timetable where
  classes : List Class
  schedule : Schedule
deriving DecidableEq, Repr

/-- The body of `compactSchedule` for one `(class, day)` row: collect
the non-null cells (`lessonsForDay`), clear the row, and write them
back as a prefix. -/
def compactRow (row : List (Option Lesson)) : List (Option Lesson) :=
  (row.filter fun c => c.isSome) ++
    List.replicate (row.length - (row.filter fun c => c.isSome).length) none

/-- `compactSchedule` applied to one class's grid: every day row is
re-prefixed. -/
def compactGrid (g : Grid) : Grid := g.map compactRow

/-- `Timetable.compactSchedule` updates `schedule[cls.name]` for every
class in order. -/
def compactSchedulePass (classes : List Class) (s : Schedule) : Schedule :=
  classes.foldl (fun s c => updA s c.name (compactGrid (lookupD s c.name))) s

/-- `Timetable.compactSchedule`. -/
def Timetable.compactSchedule (t : Timetable) : Timetable :=
  { t with schedule := compactSchedulePass t.classes t.schedule }

/-- A row has a gap when an occupied cell follows an empty one; this is
what the per-`(class, day)` scan of `validateNoGaps` detects
(`firstNull` then `lessonAfterNull`). -/
def rowHasGap (row : List (Option Lesson)) : Bool :=
  (row.dropWhile fun c => c.isSome).any fun c => c.isSome

/-- `Timetable.validateNoGaps`: true iff no `(class, day)` row has a gap. -/
def Timetable.validateNoGaps (t : Timetable) : Bool :=
  !(t.classes.any fun c =>
    (List.range DAYS).any fun day =>
      rowHasGap ((lookupD t.schedule c.name).getD day []))

/-- The lessons held by a row's occupied cells, in order. -/
def rowLessons (row : List (Option Lesson)) : List Lesson := row.filterMap id

/-! ### Row-level compaction lemmas -/

theorem filter_isSome_replicate_none (n : Nat) :
    (List.replicate n (none : Option Lesson)).filter (fun c => c.isSome) = [] := by
  induction n with
  | zero => rfl
  | succ n ih => simpa [List.replicate_succ, List.filter_cons] using ih

theorem any_isSome_replicate_none (n : Nat) :
    ((List.replicate n (none : Option Lesson)).any fun c => c.isSome) = false := by
  induction n with
  | zero => rfl
  | succ n ih => simpa [List.replicate_succ] using ih

theorem compactRow_filter (row : List (Option Lesson)) :
    (compactRow row).filter (fun c => c.isSome) = row.filter fun c => c.isSome := by
  rw [compactRow, List.filter_append, filter_isSome_replicate_none,
    List.append_nil, List.filter_eq_self]
  intro c hc
  exact (List.mem_filter.mp hc).2

theorem compactRow_length (row : List (Option Lesson)) :
    (compactRow row).length = row.length := by
  have := List.length_filter_le (fun c => c.isSome) row
  simp only [compactRow, List.length_append, List.length_replicate]
  omega

theorem compactRow_idem (row : List (Option Lesson)) :
    compactRow (compactRow row) = compactRow row := by
  calc compactRow (compactRow row)
      = ((compactRow row).filter fun c => c.isSome) ++
          List.replicate ((compactRow row).length -
            ((compactRow row).filter fun c => c.isSome).length) none := rfl
    _ = compactRow row := by rw [compactRow_filter, compactRow_length, compactRow]

theorem rowHasGap_prefix_none (l : List (Option Lesson)) (n : Nat)
    (hl : ∀ c ∈ l, c.isSome) :
    rowHasGap (l ++ List.replicate n none) = false := by
  induction l with
  | nil =>
    cases n with
    | zero => rfl
    | succ n =>
      simp only [List.nil_append, rowHasGap, List.replicate_succ,
        List.dropWhile_cons]
      simpa using any_isSome_replicate_none n
  | cons c cs ih =>
    have hc : c.isSome = true := hl c (by simp)
    simp only [rowHasGap, List.cons_append, List.dropWhile_cons, hc, if_true]
    exact ih fun x hx => hl x (by simp [hx])

theorem rowHasGap_compactRow (row : List (Option Lesson)) :
    rowHasGap (compactRow row) = false :=
  rowHasGap_prefix_none _ _ fun c hc => (List.mem_filter.mp hc).2

theorem rowLessons_filter (row : List (Option Lesson)) :
    rowLessons (row.filter fun c => c.isSome) = rowLessons row := by
  induction row with
  | nil => rfl
  | cons c cs ih =>
    cases c <;> simp [rowLessons, List.filter_cons, List.filterMap_cons] at ih ⊢ <;>
      exact ih

theorem rowLessons_replicate_none (n : Nat) :
    rowLessons (List.replicate n none) = [] := by
  induction n with
  | zero => rfl
  | succ n ih => simpa [rowLessons, List.replicate_succ, List.filterMap_cons] using ih

theorem rowLessons_compactRow (row : List (Option Lesson)) :
    rowLessons (compactRow row) = rowLessons row := by
  rw [compactRow]
  show rowLessons _ = _
  rw [rowLessons, List.filterMap_append]
  have h1 := rowLessons_filter row
  have h2 := rowLessons_replicate_none
    (row.length - (row.filter fun c => c.isSome).length)
  rw [rowLessons] at h1 h2
  rw [h1, h2, List.append_nil]

/-! ### Association-list (JS object) lemmas -/

/-- Whether the schedule object has an entry for key `k`. -/
def hasKey (s : Schedule) (k : String) : Bool := s.any fun e => e.1 == k

theorem updA_of_not_hasKey (s : Schedule) (k : String) (g : Grid)
    (h : hasKey s k = false) : updA s k g = s := by
  induction s with
  | nil => rfl
  | cons e s ih =>
    simp only [hasKey, List.any_cons, Bool.or_eq_false_iff] at h
    rw [updA, if_neg (by simp [h.1]), ih h.2]

theorem lookupD_of_not_hasKey (s : Schedule) (k : String)
    (h : hasKey s k = false) : lookupD s k = emptyGrid := by
  induction s with
  | nil => rfl
  | cons e s ih =>
    simp only [hasKey, List.any_cons, Bool.or_eq_false_iff] at h
    simp only [lookupD, List.find?_cons, h.1]
    exact ih h.2

theorem lookupD_cons_self (e : String × Grid) (s : Schedule) (k : String)
    (he : (e.1 == k) = true) : lookupD (e :: s) k = e.2 := by
  simp [lookupD, List.find?_cons, he]

theorem lookupD_cons_ne (e : String × Grid) (s : Schedule) (k : String)
    (he : (e.1 == k) = false) : lookupD (e :: s) k = lookupD s k := by
  simp [lookupD, List.find?_cons, he]

theorem lookupD_updA_self (s : Schedule) (k : String) (g : Grid)
    (h : hasKey s k = true) : lookupD (updA s k g) k = g := by
  induction s with
  | nil => simp [hasKey] at h
  | cons e s ih =>
    by_cases he : (e.1 == k) = true
    · rw [updA, if_pos he, lookupD_cons_self _ _ _ (by simp)]
    · have hef : (e.1 == k) = false := by simpa using he
      simp only [hasKey, List.any_cons, hef, Bool.false_or] at h
      rw [updA, if_neg he, lookupD_cons_ne _ _ _ hef]
      exact ih h

theorem lookupD_updA_ne (s : Schedule) (k k' : String) (g : Grid)
    (h : k' ≠ k) : lookupD (updA s k g) k' = lookupD s k' := by
  induction s with
  | nil => rfl
  | cons e s ih =>
    by_cases he : (e.1 == k) = true
    · rw [updA, if_pos he, lookupD_cons_ne _ _ _ (by simpa using Ne.symm h),
        lookupD_cons_ne _ _ _ ?_]
      · exact ih
      · have : e.1 = k := by simpa using he
        simpa [this] using Ne.symm h
    · rw [updA, if_neg he]
      cases he2 : (e.1 == k')
      · rw [lookupD_cons_ne _ _ _ he2, lookupD_cons_ne _ _ _ he2]
        exact ih
      · rw [lookupD_cons_self _ _ _ he2, lookupD_cons_self _ _ _ he2]

theorem updA_eq_self_of_uniform (s : Schedule) (k : String) (g : Grid)
    (h : ∀ e ∈ s, e.1 = k → e.2 = g) : updA s k g = s := by
  induction s with
  | nil => rfl
  | cons e s ih =>
    rw [updA, ih fun e he => h e (by simp [he])]
    by_cases he : (e.1 == k) = true
    · have hk : e.1 = k := by simpa using he
      have hv := h e (by simp) hk
      rw [if_pos he, ← hk, ← hv]
    · rw [if_neg he]

theorem mem_updA_uniform (s : Schedule) (k : String) (g : Grid) :
    ∀ e ∈ updA s k g, e.1 = k → e.2 = g := by
  induction s with
  | nil => intro e he; cases he
  | cons e0 s ih =>
    intro e he hk
    rw [updA] at he
    rcases List.mem_cons.mp he with h | h
    · by_cases h0 : (e0.1 == k) = true
      · rw [if_pos h0] at h; rw [h]
      · rw [if_neg h0] at h
        rw [h] at hk
        exact absurd hk (by simpa using h0)
    · exact ih e h hk

theorem hasKey_updA (s : Schedule) (k k' : String) (g : Grid) :
    hasKey (updA s k g) k' = hasKey s k' := by
  induction s with
  | nil => rfl
  | cons e s ih =>
    rw [updA]
    by_cases he : (e.1 == k) = true
    · have hk : e.1 = k := by simpa using he
      simp only [if_pos he, hasKey, List.any_cons] at ih ⊢
      rw [ih, hk]
    · simp only [if_neg he, hasKey, List.any_cons] at ih ⊢
      rw [ih]

/-! ### `compactSchedule` characterisation, idempotence -/

theorem compactGrid_idem (g : Grid) : compactGrid (compactGrid g) = compactGrid g := by
  simp only [compactGrid, List.map_map]
  exact List.map_congr_left fun r _ => compactRow_idem r

theorem compactGrid_empty : compactGrid emptyGrid = emptyGrid := by decide

theorem compactSchedulePass_cons (c : Class) (cs : List Class) (s : Schedule) :
    compactSchedulePass (c :: cs) s =
      compactSchedulePass cs (updA s c.name (compactGrid (lookupD s c.name))) := rfl

theorem lookupD_compactSchedulePass (classes : List Class) (s : Schedule) (k : String) :
    lookupD (compactSchedulePass classes s) k =
      if k ∈ classes.map Class.name then compactGrid (lookupD s k)
      else lookupD s k := by
  induction classes generalizing s with
  | nil => simp [compactSchedulePass]
  | cons c cs ih =>
    rw [compactSchedulePass_cons, ih]
    by_cases hk : k = c.name
    · have hcn : c.name = k := hk.symm
      rw [hcn, if_pos (List.mem_map.mpr ⟨c, List.mem_cons_self c cs, hcn⟩)]
      cases hh : hasKey s k
      · rw [updA_of_not_hasKey s k _ hh, lookupD_of_not_hasKey s k hh,
          compactGrid_empty, ite_self]
      · rw [lookupD_updA_self s k _ hh, compactGrid_idem, ite_self]
    · rw [lookupD_updA_ne s c.name k _ hk]
      by_cases hmem : k ∈ cs.map Class.name
      · rw [if_pos hmem, if_pos (by simp [hmem])]
      · rw [if_neg hmem, if_neg ?_]
        simp only [List.map_cons, List.mem_cons]
        rintro (h | h)
        · exact hk h
        · exact hmem h

/-- Updating key `k` with the compaction of its current grid is a no-op
on schedules where that has already been done. -/
def DoneKey (k : String) (s : Schedule) : Prop :=
  updA s k (compactGrid (lookupD s k)) = s

theorem doneKey_updA_self (s : Schedule) (k : String) :
    DoneKey k (updA s k (compactGrid (lookupD s k))) := by
  cases hh : hasKey s k
  · rw [updA_of_not_hasKey s k _ hh]
    rw [DoneKey, updA_of_not_hasKey s k _ hh]
  · rw [DoneKey, lookupD_updA_self s k _ hh, compactGrid_idem]
    exact updA_eq_self_of_uniform _ _ _ (mem_updA_uniform s k _)

theorem updA_comm (s : Schedule) (k k' : String) (g g' : Grid) (h : k ≠ k') :
    updA (updA s k g) k' g' = updA (updA s k' g') k g := by
  induction s with
  | nil => rfl
  | cons e s ih =>
    by_cases h1 : (e.1 == k) = true
    · have hk : e.1 = k := by simpa using h1
      have h2 : (e.1 == k') = false := by simp [hk, h]
      rw [updA, if_pos h1, updA, if_neg (by simpa using h),
        updA, if_neg (by simp [h2]), updA, if_pos h1, ih]
    · by_cases h2 : (e.1 == k') = true
      · rw [updA, if_neg h1, updA, if_pos h2, updA, if_pos h2,
          updA, if_neg (by simpa using Ne.symm h), ih]
      · rw [updA, if_neg h1, updA, if_neg (by simp [h2]), updA,
          if_neg (by simp [h2]), updA, if_neg h1, ih]

theorem doneKey_updA_ne (s : Schedule) (k k' : String) (g' : Grid)
    (hne : k' ≠ k) (h : DoneKey k s) : DoneKey k (updA s k' g') := by
  rw [DoneKey, lookupD_updA_ne s k' k g' (fun hk => hne hk.symm)]
  calc updA (updA s k' g') k (compactGrid (lookupD s k))
      = updA (updA s k (compactGrid (lookupD s k))) k' g' :=
        updA_comm s k' k g' (compactGrid (lookupD s k)) hne
    _ = updA s k' g' := by rw [h]

theorem doneKey_step (s : Schedule) (k : String) (c : Class)
    (h : DoneKey k s) :
    DoneKey k (updA s c.name (compactGrid (lookupD s c.name))) := by
  by_cases hk : c.name = k
  · subst hk; exact doneKey_updA_self s c.name
  · exact doneKey_updA_ne s k c.name _ hk h

theorem doneKey_pass (cs : List Class) (s : Schedule) (k : String)
    (h : DoneKey k s) : DoneKey k (compactSchedulePass cs s) := by
  induction cs generalizing s with
  | nil => exact h
  | cons c cs' ih =>
    rw [compactSchedulePass_cons]
    exact ih _ (doneKey_step s k c h)

theorem pass_establishes_doneKey (cs : List Class) (s : Schedule) :
    ∀ c ∈ cs, DoneKey c.name (compactSchedulePass cs s) := by
  induction cs generalizing s with
  | nil => intro c hc; cases hc
  | cons c0 cs' ih =>
    intro c hc
    rw [compactSchedulePass_cons]
    rcases List.mem_cons.mp hc with h | h
    · subst h
      exact doneKey_pass cs' _ c.name (doneKey_updA_self s c.name)
    · exact ih _ c h

theorem compactSchedulePass_of_done (cs : List Class) (s : Schedule)
    (h : ∀ c ∈ cs, DoneKey c.name s) : compactSchedulePass cs s = s := by
  induction cs with
  | nil => rfl
  | cons c cs' ih =>
    rw [compactSchedulePass_cons, h c (by simp)]
    exact ih fun c' hc' => h c' (by simp [hc'])

theorem compactSchedulePass_idem (cs : List Class) (s : Schedule) :
    compactSchedulePass cs (compactSchedulePass cs s) = compactSchedulePass cs s :=
  compactSchedulePass_of_done cs _ (pass_establishes_doneKey cs s)

theorem getD_map_compactRow (g : Grid) (d : Nat) :
    (compactGrid g).getD d [] = compactRow (g.getD d []) := by
  rcases lt_or_ge d g.length with hd | hd
  · rw [compactGrid, List.getD_eq_getElem _ _ (by simpa using hd),
      List.getElem_map, List.getD_eq_getElem _ _ hd]
  · rw [compactGrid, List.getD_eq_default _ _ (by simpa using hd),
      List.getD_eq_default _ _ hd]
    rfl

/-- C6: for every schedule, compacting twice equals compacting once,
and for every class and day the multiset of lessons in that
`(class, day)` row after `compactSchedule` equals the multiset before
it. -/
theorem C6_compact_idempotent_and_row_multiset (t : Timetable) :
    t.compactSchedule.compactSchedule = t.compactSchedule
    ∧ ∀ c ∈ t.classes, ∀ day : Nat,
        (↑(rowLessons ((lookupD t.compactSchedule.schedule c.name).getD day [])) :
            Multiset Lesson)
          = ↑(rowLessons ((lookupD t.schedule c.name).getD day [])) := by
  constructor
  · simp only [Timetable.compactSchedule]
    rw [compactSchedulePass_idem]
  · intro c hc day
    rw [show t.compactSchedule.schedule = compactSchedulePass t.classes t.schedule
        from rfl,
      lookupD_compactSchedulePass, if_pos (List.mem_map.mpr ⟨c, hc, rfl⟩),
      getD_map_compactRow, rowLessons_compactRow]

/-- C10: compactSchedule is order-preserving within each day: each
`(class, day)` row holds the same lessons in the same relative order
after compaction, and the occupied cells form a prefix (no gaps). -/
theorem C10_compact_order_preserving (t : Timetable) :
    ∀ c ∈ t.classes, ∀ day : Nat,
      rowLessons ((lookupD t.compactSchedule.schedule c.name).getD day []) =
        rowLessons ((lookupD t.schedule c.name).getD day [])
      ∧ rowHasGap ((lookupD t.compactSchedule.schedule c.name).getD day []) = false := by
  intro c hc day
  rw [show t.compactSchedule.schedule = compactSchedulePass t.classes t.schedule
      from rfl,
    lookupD_compactSchedulePass, if_pos (List.mem_map.mpr ⟨c, hc, rfl⟩),
    getD_map_compactRow]
  exact ⟨rowLessons_compactRow _, rowHasGap_compactRow _⟩

/-! ### Concrete example values used by witnesses and counterexamples -/

/-- A teacher available in every one of the 5×6 slots. -/
def teacherEx : Teacher := ⟨"Alice", ⟨5, 6, [63, 63, 63, 63, 63]⟩⟩

/-- A Math lesson taught by `teacherEx`, twice a week. -/
def mathEx : Lesson := ⟨"Math", teacherEx, 2⟩

/-- An English lesson taught by `teacherEx`, once a week. -/
def engEx : Lesson := ⟨"Eng", teacherEx, 1⟩

/-- A class with the two lessons above. -/
def clsEx : Class := ⟨"C1", [mathEx, engEx]⟩

/-- A gappy grid for `clsEx`: day 0 holds Math and Eng with gaps. -/
def gridEx : Grid :=
  [[none, some mathEx, none, some engEx, none, none],
   [some mathEx, none, none, none, none, none],
   [none, none, none, none, none, none],
   [none, none, none, none, none, none],
   [none, none, none, none, none, none]]

/-- A timetable holding `gridEx` for class `C1`. -/
def ttEx : Timetable := ⟨[clsEx], [("C1", gridEx)]⟩

/-- Witness for C6 at the concrete timetable `ttEx`. -/
theorem C6_compact_idempotent_and_row_multiset_witness :
    (ttEx.compactSchedule.compactSchedule = ttEx.compactSchedule)
    ∧ (↑(rowLessons ((lookupD ttEx.compactSchedule.schedule "C1").getD 0 [])) :
        Multiset Lesson)
      = ↑(rowLessons ((lookupD ttEx.schedule "C1").getD 0 [])) :=
  ⟨(C6_compact_idempotent_and_row_multiset ttEx).1,
    (C6_compact_idempotent_and_row_multiset ttEx).2 clsEx (by decide) 0⟩

/-- Witness for C10 at the concrete timetable `ttEx`: day 0 compacts to
`[Math, Eng]` followed by empties, in the original order. -/
theorem C10_compact_order_preserving_witness :
    (rowLessons ((lookupD ttEx.compactSchedule.schedule "C1").getD 0 []) =
        rowLessons ((lookupD ttEx.schedule "C1").getD 0 [])
      ∧ rowHasGap ((lookupD ttEx.compactSchedule.schedule "C1").getD 0 []) = false)
    ∧ rowLessons ((lookupD ttEx.compactSchedule.schedule "C1").getD 0 []) =
        [mathEx, engEx] :=
  ⟨C10_compact_order_preserving ttEx clsEx (by decide) 0, by decide⟩

/-! ### Metrics evaluator -/

/-- The lessons occupying slot `(day, period)` across all classes, in
class order (the inner loop of `countTeacherConflicts`). -/
def slotLessons (t : Timetable) (day period : Nat) : List Lesson :=
  t.classes.filterMap fun c => getCell (lookupD t.schedule c.name) day period

/-- Per-slot double-booking excess: the source builds `teacherMap`
(name to occurrence count) for the slot and adds `count - 1` for every
teacher with `count > 1`; summing `count - 1` over the distinct names
is that total. -/
def doubleBookExcess (names : List String) : Nat :=
  names.dedup.foldl (fun acc n => acc + (names.count n - 1)) 0

/-- Availability violations plus double-booking excesses at one slot. -/
def slotConflicts (t : Timetable) (day period : Nat) : Nat :=
  ((slotLessons t day period).countP fun l => !(l.teacher.isAvailable day period)) +
    doubleBookExcess ((slotLessons t day period).map fun l => l.teacher.name)

/-- The integer `conflicts` accumulator of `countTeacherConflicts`:
summed over all `(day, period)` slots. -/
def intConflicts (t : Timetable) : Nat :=
  ((List.range DAYS).map fun day =>
    ((List.range PERIODS_PER_DAY).map fun period => slotConflicts t day period).sum).sum

/-- Same-subject adjacencies in one row: positions `period < 5` where
the cells at `period` and `period + 1` hold lessons with equal names. -/
def rowAdjacencies (row : List (Option Lesson)) : Nat :=
  ((List.range (PERIODS_PER_DAY - 1)).filter fun period =>
    match row.getD period none, row.getD (period + 1) none with
    | some cur, some nxt => cur.name == nxt.name
    | _, _ => false).length

/-- The `distributionPenalty` loop counts `0.5` per same-subject
adjacency; this is the number of adjacencies. -/
def adjacencyCount (t : Timetable) : Nat :=
  (t.classes.map fun c =>
    ((List.range DAYS).map fun day =>
      rowAdjacencies ((lookupD t.schedule c.name).getD day [])).sum).sum

/-- `Timetable.countTeacherConflicts`: integer conflicts plus `0.5` per
same-subject adjacency, returned as one number. -/
def Timetable.countTeacherConflicts (t : Timetable) : ℚ :=
  (intConflicts t : ℚ) + (1 / 2) * (adjacencyCount t : ℚ)

/-- Occupied-cell count of one class grid. -/
def occupiedCount (g : Grid) : Nat :=
  ((List.range DAYS).map fun day =>
    ((List.range PERIODS_PER_DAY).filter fun period =>
      (getCell g day period).isSome).length).sum

/-- `Timetable.countUnscheduledPeriods`: per class, required minus
scheduled periods, summed (a JS number, possibly negative). -/
def Timetable.countUnscheduledPeriods (t : Timetable) : Int :=
  (t.classes.map fun c =>
    (c.getTotalPeriodsPerWeek : Int) -
      (occupiedCount (lookupD t.schedule c.name) : Int)).sum

/-- `countEmptySpacePenalty` for one row: `1000` per empty cell between
the first and last occupied cells. -/
def rowEmptyPenalty (row : List (Option Lesson)) : Nat :=
  let occ := (List.range PERIODS_PER_DAY).filter fun p => (row.getD p none).isSome
  match occ.head?, occ.getLast? with
  | some first, some last =>
    1000 * ((List.range PERIODS_PER_DAY).filter fun p =>
      first ≤ p && p ≤ last && !(row.getD p none).isSome).length
  | _, _ => 0

/-- `Timetable.countEmptySpacePenalty`. -/
def Timetable.countEmptySpacePenalty (t : Timetable) : Nat :=
  (t.classes.map fun c =>
    ((List.range DAYS).map fun day =>
      rowEmptyPenalty ((lookupD t.schedule c.name).getD day [])).sum).sum

/-- `Timetable.countFreeFirstPeriods`: days whose first period is free,
summed over classes. -/
def Timetable.countFreeFirstPeriods (t : Timetable) : Nat :=
  (t.classes.map fun c =>
    ((List.range DAYS).filter fun day =>
      (getCell (lookupD t.schedule c.name) day 0).isNone).length).sum

/-- `Scheduler.calculateFitness`:
`conflicts * 50 + unscheduled * 2 + emptySpacePenalty + freeFirstPeriods * 5`. -/
def calculateFitness (t : Timetable) : ℚ :=
  t.countTeacherConflicts * 50 + (t.countUnscheduledPeriods : ℚ) * 2 +
    (t.countEmptySpacePenalty : ℚ) + (t.countFreeFirstPeriods : ℚ) * 5

/-- The fitness formula asserted by the claim (from the spec's words):
`50·C_int + 2·U + E + 5·F` with `C_int = ⌊C⌋`, the adjacency penalty
kept out of the conflict term. -/
def specFitnessC3 (t : Timetable) : ℚ :=
  50 * (⌊t.countTeacherConflicts⌋ : ℚ) + 2 * (t.countUnscheduledPeriods : ℚ) +
    (t.countEmptySpacePenalty : ℚ) + 5 * (t.countFreeFirstPeriods : ℚ)

/-- A class whose only lesson is Math twice a week. -/
def clsAdj : Class := ⟨"C1", [mathEx]⟩

/-- Timetable placing the two Math periods adjacently on day 0. -/
def ttAdj : Timetable :=
  ⟨[clsAdj],
   [("C1",
     [[some mathEx, some mathEx, none, none, none, none],
      [none, none, none, none, none, none],
      [none, none, none, none, none, none],
      [none, none, none, none, none, none],
      [none, none, none, none, none, none]])]⟩

/-- Counterexample to C3: on `ttAdj` there is one same-subject
adjacency and no integer conflict, so the code's fitness is
`50·0.5 + 5·4 = 45` while the claimed formula gives
`50·⌊0.5⌋ + 5·4 = 20`. -/
theorem C3_fitness_floor_counterexample :
    calculateFitness ttAdj ≠ specFitnessC3 ttAdj
    ∧ adjacencyCount ttAdj = 1 ∧ intConflicts ttAdj = 0 := by
  have h1 : intConflicts ttAdj = 0 := by decide
  have h2 : adjacencyCount ttAdj = 1 := by decide
  have h3 : ttAdj.countUnscheduledPeriods = 0 := by decide
  have h4 : ttAdj.countEmptySpacePenalty = 0 := by decide
  have h5 : ttAdj.countFreeFirstPeriods = 4 := by decide
  refine ⟨?_, h2, h1⟩
  rw [calculateFitness, specFitnessC3, Timetable.countTeacherConflicts,
    h1, h2, h3, h4, h5]
  norm_num

/-- C3 amended: the acceptance fitness equals
`50·(C_int + A) + 2·U + E + 5·F` where `C_int` is the integer conflict
count (availability violations plus per-slot double-booking excesses)
and `A = 0.5` per same-subject adjacency: the adjacency penalty is
folded into the conflict term with weight 25 per adjacency, not
reported separately, and no floor is taken. -/
theorem C3_fitness_formula (t : Timetable) :
    calculateFitness t =
      50 * ((intConflicts t : ℚ) + (1 / 2) * (adjacencyCount t : ℚ)) +
        2 * (t.countUnscheduledPeriods : ℚ) +
        (t.countEmptySpacePenalty : ℚ) +
        5 * (t.countFreeFirstPeriods : ℚ) := by
  rw [calculateFitness, Timetable.countTeacherConflicts]
  ring

/-! ### The ambient random stream (`Math.random()`) -/

/-- The ambient `Math.random()` stream: an infinite sequence of
rationals with the position of the next draw.  The source takes no
seed; every `Math.random()` call site consumes the next value, in the
source's call order. -/
structure Rng where
  stream : Nat → ℚ
  pos : Nat

/-- Draw the next `Math.random()` value. -/
def Rng.next (r : Rng) : ℚ × Rng := (r.stream r.pos, ⟨r.stream, r.pos + 1⟩)

/-- `Math.floor(r * n)` for a draw `r ∈ [0, 1)`: an index in `[0, n)`.
Stream values outside `[0, 1)` (which `Math.random()` never produces)
are clamped into the same range. -/
def randFloor (q : ℚ) (n : Nat) : Nat :=
  min (n - 1) (Int.toNat ⌊q * (n : ℚ)⌋)

/-- Swap two positions of a list (the destructuring swap of the source). -/
def swapIdx {α : Type} (l : List α) (i j : Nat) (d : α) : List α :=
  (l.set i (l.getD j d)).set j (l.getD i d)

/-- The Fisher–Yates loop of `shuffleArray`, from index `i` down to 1. -/
def shuffleGo {α : Type} (d : α) : Nat → List α → Rng → List α × Rng
  | 0, l, rng => (l, rng)
  | Nat.succ i, l, rng =>
    let (q, rng1) := rng.next
    let j := randFloor q (i + 2)
    shuffleGo d i (swapIdx l (i + 1) j d) rng1

/-- `Timetable.shuffleArray`: in-place Fisher–Yates shuffle driven by
`Math.random()` (`d` is the default for out-of-range reads, which the
loop never performs). -/
def shuffleArray {α : Type} (d : α) (l : List α) (rng : Rng) : List α × Rng :=
  shuffleGo d (l.length - 1) l rng

/-! ### The initialiser's lesson queue and its sort (C9) -/

/-- Expansion step of `initializeNoGaps`: each lesson pushed
`periodsPerWeek` times, in lesson order. -/
def expandLessons (lessons : List Lesson) : List Lesson :=
  lessons.flatMap fun l => List.replicate l.periodsPerWeek l

/-- The comparator key of `lessonQueue.sort((a, b) => aSlots - bSlots)`:
the number of available slots of the lesson's teacher. -/
def slotsKey (l : Lesson) : Nat := l.teacher.getAvailableSlots.length

/-- Insertion step of a stable sort by `slotsKey`: the new element goes
before the first entry with a key not smaller than its own, so equal
keys keep their original relative order — the ES2019-mandated stable
behaviour of `Array.prototype.sort` with this comparator. -/
def insertByKey (key : Lesson → Nat) (x : Lesson) : List Lesson → List Lesson
  | [] => [x]
  | y :: ys => if key y < key x then y :: insertByKey key x ys else x :: y :: ys

/-- Stable insertion sort by a numeric key: the model of
`Array.prototype.sort((a, b) => key(a) - key(b))`. -/
def sortByKey (key : Lesson → Nat) : List Lesson → List Lesson
  | [] => []
  | x :: xs => insertByKey key x (sortByKey key xs)

/-- The sorted lesson queue the constructive initialiser works through. -/
def initQueue (cls : Class) : List Lesson :=
  sortByKey slotsKey (expandLessons cls.lessons)

theorem mem_insertByKey (key : Lesson → Nat) (x : Lesson) (l : List Lesson) :
    ∀ z ∈ insertByKey key x l, z = x ∨ z ∈ l := by
  induction l with
  | nil => intro z hz; rcases List.mem_singleton.mp hz with h; exact Or.inl h
  | cons y ys ih =>
    intro z hz
    rw [insertByKey] at hz
    by_cases hc : key y < key x
    · rw [if_pos hc] at hz
      rcases List.mem_cons.mp hz with h | h
      · exact Or.inr (by simp [h])
      · rcases ih z h with h' | h'
        · exact Or.inl h'
        · exact Or.inr (by simp [h'])
    · rw [if_neg hc] at hz
      rcases List.mem_cons.mp hz with h | h
      · exact Or.inl h
      · exact Or.inr h

theorem sorted_insertByKey (key : Lesson → Nat) (x : Lesson) (l : List Lesson)
    (h : l.Pairwise fun a b => key a ≤ key b) :
    (insertByKey key x l).Pairwise fun a b => key a ≤ key b := by
  induction l with
  | nil => simp [insertByKey]
  | cons y ys ih =>
    rw [insertByKey]
    rcases List.pairwise_cons.mp h with ⟨hy, hys⟩
    by_cases hc : key y < key x
    · rw [if_pos hc]
      refine List.pairwise_cons.mpr ⟨?_, ih hys⟩
      intro z hz
      rcases mem_insertByKey key x ys z hz with h' | h'
      · rw [h']; exact Nat.le_of_lt hc
      · exact hy z h'
    · rw [if_neg hc]
      refine List.pairwise_cons.mpr ⟨?_, h⟩
      intro z hz
      rcases List.mem_cons.mp hz with h' | h'
      · rw [h']; omega
      · exact le_trans (by omega) (hy z h')

theorem filter_insertByKey (key : Lesson → Nat) (x : Lesson) (l : List Lesson)
    (n : Nat) :
    (insertByKey key x l).filter (fun y => key y == n) =
      if key x = n then x :: l.filter (fun y => key y == n)
      else l.filter fun y => key y == n := by
  induction l with
  | nil =>
    by_cases hx : key x = n <;> simp [insertByKey, List.filter_cons, hx]
  | cons y ys ih =>
    rw [insertByKey]
    by_cases hc : key y < key x
    · rw [if_pos hc]
      by_cases hx : key x = n
      · have hy : (key y == n) = false := by
          simp only [beq_eq_false_iff_ne]; omega
        rw [if_pos hx]
        rw [List.filter_cons, hy, List.filter_cons, hy]
        simpa [hx] using ih
      · rw [if_neg hx]
        rw [List.filter_cons, List.filter_cons]
        cases key y == n <;> simpa [hx] using ih
    · rw [if_neg hc]
      by_cases hx : key x = n
      · rw [if_pos hx, List.filter_cons, if_pos (by simpa using hx)]
      · rw [if_neg hx, List.filter_cons, if_neg (by simpa using hx)]

theorem sorted_sortByKey (key : Lesson → Nat) (l : List Lesson) :
    (sortByKey key l).Pairwise fun a b => key a ≤ key b := by
  induction l with
  | nil => simp [sortByKey]
  | cons x xs ih => exact sorted_insertByKey key x _ ih

theorem filter_sortByKey (key : Lesson → Nat) (l : List Lesson) (n : Nat) :
    (sortByKey key l).filter (fun y => key y == n) =
      l.filter fun y => key y == n := by
  induction l with
  | nil => rfl
  | cons x xs ih =>
    rw [sortByKey, filter_insertByKey, List.filter_cons]
    by_cases hx : key x = n
    · rw [if_pos hx, if_pos (by simpa using hx), ih]
    · rw [if_neg hx, if_neg (by simpa using hx), ih]

/-- Lexicographic comparison of names by character code: the usual
string order, written out over the character lists (used only by the
spec-side C9 ordering). -/
def strLt : List Char → List Char → Bool
  | [], [] => false
  | [], _ :: _ => true
  | _ :: _, [] => false
  | a :: as, b :: bs => a.val < b.val || (a == b && strLt as bs)

/-- Lexicographic "less than" on `(slot count, subject name)`: the
ordering the claim asserts (from the spec's words). -/
def lexLtC9 (a b : Lesson) : Bool :=
  slotsKey a < slotsKey b ||
    (slotsKey a == slotsKey b && strLt a.name.data b.name.data)

/-- Insertion sort by the claimed `(slot count, subject name)` order
(from the spec's words; for comparison with `initQueue`). -/
def insertC9 (x : Lesson) : List Lesson → List Lesson
  | [] => [x]
  | y :: ys => if lexLtC9 y x then y :: insertC9 x ys else x :: y :: ys

/-- The claimed queue ordering (from the spec's words): ascending slot
count, ties broken by subject name lexicographically. -/
def specSortC9 : List Lesson → List Lesson
  | [] => []
  | x :: xs => insertC9 x (specSortC9 xs)

/-- The queue the claim says the initialiser produces. -/
def specQueueC9 (cls : Class) : List Lesson :=
  specSortC9 (expandLessons cls.lessons)

/-- A second fully-available teacher. -/
def teacherEx2 : Teacher := ⟨"Bob", ⟨5, 6, [63, 63, 63, 63, 63]⟩⟩

/-- Lesson "B" (listed first) with the first teacher. -/
def lessonB : Lesson := ⟨"B", teacherEx, 1⟩

/-- Lesson "A" (listed second) with the second teacher. -/
def lessonA : Lesson := ⟨"A", teacherEx2, 1⟩

/-- A class whose two lessons have equally-constrained teachers but
subject names in the opposite order to their listing. -/
def clsC9 : Class := ⟨"C9", [lessonB, lessonA]⟩

/-- Counterexample to C9: both teachers have 30 available slots, so the
comparator `aSlots - bSlots` ties; the source's stable sort keeps the
expansion order `[B, A]`, while the claimed subject-name tie-break
would give `[A, B]`. -/
theorem C9_tiebreak_counterexample :
    initQueue clsC9 ≠ specQueueC9 clsC9
    ∧ initQueue clsC9 = [lessonB, lessonA]
    ∧ specQueueC9 clsC9 = [lessonA, lessonB] := by
  refine ⟨?_, by decide, by decide⟩
  decide

/-- C9 amended: the initialiser orders each class's expanded placement
requests by ascending count of the teacher's available slots, and ties
between requests with equal slot counts keep their expansion order
(the sort is stable); there is no subject-name tie-break. -/
theorem C9_sort_stable_no_tiebreak (cls : Class) :
    (initQueue cls).Pairwise (fun a b => slotsKey a ≤ slotsKey b)
    ∧ ∀ n : Nat, (initQueue cls).filter (fun l => slotsKey l == n) =
        (expandLessons cls.lessons).filter fun l => slotsKey l == n :=
  ⟨sorted_sortByKey slotsKey _, fun n => filter_sortByKey slotsKey _ n⟩

/-! ### Constructive initialiser (`initializeNoGaps`) -/

/-- `Timetable.isTeacherBusy`: the teacher is unavailable at the slot,
or teaches some other class there (read from the given schedule). -/
def isTeacherBusy (classes : List Class) (s : Schedule) (teacher : Teacher)
    (day period : Nat) (skipName : String) : Bool :=
  if !(teacher.isAvailable day period) then true
  else classes.any fun c =>
    c.name != skipName &&
      (match getCell (lookupD s c.name) day period with
       | some lesson => lesson.teacher.name == teacher.name
       | none => false)

/-- All `(day, period)` pairs in row-major order (the nested
day/period loops of the source). -/
def allSlots : List TimeSlot :=
  (List.range DAYS).flatMap fun day =>
    (List.range PERIODS_PER_DAY).map fun period => ⟨day, period⟩

/-- One step of the first-pass `while` loop of `initializeNoGaps`: try
the queue entry at `idx` in a shuffled copy of its teacher's available
slots; on success splice it out of the queue, otherwise advance `idx`.
`fuel` bounds the remaining steps (`queue.length - idx` strictly
decreases). -/
def placeLoop (classes : List Class) (clsName : String) :
    Nat → List Lesson → Nat → Schedule → Rng → List Lesson × Schedule × Rng
  | 0, queue, _, s, rng => (queue, s, rng)
  | Nat.succ fuel, queue, idx, s, rng =>
    if idx < queue.length then
      let lesson := queue.getD idx defLesson
      let sh := shuffleArray ⟨0, 0⟩ lesson.teacher.getAvailableSlots rng
      match sh.1.find? fun sl =>
        (getCell (lookupD s clsName) sl.day sl.period).isNone &&
          !(isTeacherBusy classes s lesson.teacher sl.day sl.period clsName) with
      | some sl =>
        placeLoop classes clsName fuel (queue.eraseIdx idx) idx
          (updA s clsName (setCell (lookupD s clsName) sl.day sl.period (some lesson)))
          sh.2
      | none => placeLoop classes clsName fuel queue (idx + 1) s sh.2
    else (queue, s, rng)

/-- The "any empty slot" fallback of `initializeNoGaps`: place the
lesson in the first row-major empty cell of the class grid, if any. -/
def placeAnywhere (s : Schedule) (clsName : String) (lesson : Lesson) : Schedule :=
  match allSlots.find? fun sl =>
      (getCell (lookupD s clsName) sl.day sl.period).isNone with
  | some sl => updA s clsName (setCell (lookupD s clsName) sl.day sl.period (some lesson))
  | none => s

/-- `initializeNoGaps` for one class: expand and sort the queue, run
the first-pass placement loop, then place any leftovers in empty cells. -/
def initClass (classes : List Class) (s : Schedule) (rng : Rng) (cls : Class) :
    Schedule × Rng :=
  let queue := initQueue cls
  let res := placeLoop classes cls.name queue.length queue 0 s rng
  (res.1.foldl (fun s l => placeAnywhere s cls.name l) res.2.1, res.2.2)

/-- `createEmptySchedule`: one empty grid per class name. -/
def createEmptySchedule (classes : List Class) : Schedule :=
  classes.map fun c => (c.name, emptyGrid)

/-- The `Timetable` constructor: create the empty schedule, run
`initializeNoGaps` over the classes, and compact. -/
def Timetable.new (classes : List Class) (rng : Rng) : Timetable × Rng :=
  let init := classes.foldl
    (fun (acc : Schedule × Rng) c => initClass classes acc.1 acc.2 c)
    (createEmptySchedule classes, rng)
  (⟨classes, compactSchedulePass classes init.1⟩, init.2)

/-- Cell-by-cell copy of one grid (`Array.from` over `DAYS` and
`PERIODS_PER_DAY`). -/
def copyGrid (g : Grid) : Grid :=
  (List.range DAYS).map fun day =>
    (List.range PERIODS_PER_DAY).map fun period => getCell g day period

/-- `Timetable.clone`: `new Timetable(this.classes)` — which re-runs
the initialiser, consuming random draws — then overwrite every class's
grid with a cell-by-cell copy of this timetable's grid. -/
def Timetable.clone (t : Timetable) (rng : Rng) : Timetable × Rng :=
  let n := Timetable.new t.classes rng
  (⟨t.classes,
    t.classes.foldl
      (fun s c => updA s c.name (copyGrid (lookupD t.schedule c.name)))
      n.1.schedule⟩,
   n.2)

/-! ### Mutation operators (`mutate`, `randomMutation`) -/

/-- Update an entry of the per-slot `teacherMap`. -/
def updTM (m : List (String × List String)) (k : String) (v : List String) :
    List (String × List String) :=
  m.map fun e => if e.1 == k then (k, v) else e

/-- The conflict scan of `mutate` at one slot: collect availability
violations in class order, and for every repeated teacher push all but
the first of the classes recorded so far for that teacher. -/
def scanSlot (t : Timetable) (day period : Nat) : List (String × Nat × Nat) :=
  (t.classes.foldl
    (fun (acc : List (String × List String) × List (String × Nat × Nat)) c =>
      match getCell (lookupD t.schedule c.name) day period with
      | none => acc
      | some lesson =>
        let acc1 :=
          if !(lesson.teacher.isAvailable day period) then
            (acc.1, acc.2 ++ [(c.name, day, period)])
          else acc
        match acc1.1.find? fun e => e.1 == lesson.teacher.name with
        | none => (acc1.1 ++ [(lesson.teacher.name, [c.name])], acc1.2)
        | some e =>
          let lst := e.2 ++ [c.name]
          (updTM acc1.1 lesson.teacher.name lst,
           acc1.2 ++ (lst.drop 1).map fun cn => (cn, day, period)))
    ([], [])).2

/-- The full conflict scan of `mutate`, in day/period order. -/
def conflictScan (t : Timetable) : List (String × Nat × Nat) :=
  (List.range DAYS).flatMap fun day =>
    (List.range PERIODS_PER_DAY).flatMap fun period => scanSlot t day period

/-- `moveLessonToAvailableSlot`: move the lesson at `(day, period)` of
`className` in `tt` to the first row-major cell that is empty,
teacher-available and not busy (busy-check against the original
`orig = this`), then compact; returns whether it moved. -/
def moveLessonToAvailableSlot (orig tt : Timetable) (className : String)
    (day period : Nat) : Timetable × Bool :=
  match getCell (lookupD tt.schedule className) day period with
  | none => (tt, false)
  | some lesson =>
    match allSlots.find? fun sl =>
        (getCell (lookupD tt.schedule className) sl.day sl.period).isNone &&
          lesson.teacher.isAvailable sl.day sl.period &&
          !(isTeacherBusy orig.classes orig.schedule lesson.teacher
              sl.day sl.period className) with
    | some sl =>
      let g1 := setCell (lookupD tt.schedule className) sl.day sl.period (some lesson)
      let g2 := setCell g1 day period none
      ({ tt with
          schedule := compactSchedulePass tt.classes (updA tt.schedule className g2) },
       true)
    | none => (tt, false)

/-- One lesson of the class rebuild of `mutate`: try a shuffled
teacher-available non-busy slot, then any empty cell; failing both
clears `placedAll`. -/
def rebuildStep (orig : Timetable) (className : String)
    (acc : Schedule × Bool × Rng) (lesson : Lesson) : Schedule × Bool × Rng :=
  let sh := shuffleArray ⟨0, 0⟩ lesson.teacher.getAvailableSlots acc.2.2
  match sh.1.find? fun sl =>
      (getCell (lookupD acc.1 className) sl.day sl.period).isNone &&
        !(isTeacherBusy orig.classes orig.schedule lesson.teacher
            sl.day sl.period className) with
  | some sl =>
    (updA acc.1 className (setCell (lookupD acc.1 className) sl.day sl.period
      (some lesson)), acc.2.1, sh.2)
  | none =>
    match allSlots.find? fun sl =>
        (getCell (lookupD acc.1 className) sl.day sl.period).isNone with
    | some sl =>
      (updA acc.1 className (setCell (lookupD acc.1 className) sl.day sl.period
        (some lesson)), acc.2.1, sh.2)
    | none => (acc.1, false, sh.2)

/-- The class rebuild of `mutate`: clear the class grid (the source
nulls all `DAYS × PERIODS_PER_DAY` cells), re-place the expanded sorted
queue — teacher-available non-busy slots first, any empty cell as
fallback — and compact.  Returns `(timetable, placedAll, rng)`. -/
def rebuildClass (orig tt : Timetable) (className : String) (rng : Rng) :
    Timetable × Bool × Rng :=
  let cleared := updA tt.schedule className emptyGrid
  let classObj := (orig.classes.find? fun c => c.name == className).getD ⟨"", []⟩
  let queue := initQueue classObj
  let res := queue.foldl (rebuildStep orig className) (cleared, true, rng)
  ({ tt with schedule := compactSchedulePass tt.classes res.1 }, res.2.1, res.2.2)

/-- The first branch of `randomMutation` (`mutationType < 0.5`): swap
two occupied periods within `randomDay` of the chosen class. -/
def rmSwap1 (clone : Timetable) (className : String) (randomDay : Nat)
    (rng : Rng) : Timetable × Rng :=
  let g := lookupD clone.schedule className
  let periodsWithLessons := (List.range PERIODS_PER_DAY).filter fun period =>
    (getCell g randomDay period).isSome
  if 2 ≤ periodsWithLessons.length then
    let sh := shuffleArray 0 periodsWithLessons rng
    let period1 := sh.1.getD 0 0
    let period2 := sh.1.getD 1 0
    let l1 := getCell g randomDay period1
    let l2 := getCell g randomDay period2
    (⟨clone.classes,
      updA clone.schedule className
        (setCell (setCell g randomDay period1 l2) randomDay period2 l1)⟩, sh.2)
  else (clone, rng)

/-- The second branch of `randomMutation`: swap one occupied period of
`day1` with one of `day2`, only when both moved lessons' teachers stay
available and non-busy (busy-check against the original `orig`). -/
def rmSwap2 (orig clone : Timetable) (className : String) (day1 day2 : Nat)
    (rng : Rng) : Timetable × Rng :=
  let g := lookupD clone.schedule className
  let periods1 := (List.range PERIODS_PER_DAY).filter fun p =>
    (getCell g day1 p).isSome
  let periods2 := (List.range PERIODS_PER_DAY).filter fun p =>
    (getCell g day2 p).isSome
  if 0 < periods1.length ∧ 0 < periods2.length then
    let q6 := rng.next
    let period1 := periods1.getD (randFloor q6.1 periods1.length) 0
    let q7 := q6.2.next
    let period2 := periods2.getD (randFloor q7.1 periods2.length) 0
    match getCell g day1 period1, getCell g day2 period2 with
    | some lesson1, some lesson2 =>
      if (lesson1.teacher.isAvailable day2 period2 &&
            !(isTeacherBusy orig.classes orig.schedule lesson1.teacher day2 period2
                className)) &&
          (lesson2.teacher.isAvailable day1 period1 &&
            !(isTeacherBusy orig.classes orig.schedule lesson2.teacher day1 period1
                className)) then
        (⟨clone.classes,
          updA clone.schedule className
            (setCell (setCell g day1 period1 (some lesson2)) day2 period2
              (some lesson1))⟩, q7.2)
      else (clone, q7.2)
    | _, _ => (clone, q7.2)
  else (clone, rng)

/-- `Timetable.randomMutation`: clone, draw the mutation type, a random
class and a random day, then apply one of the two swap branches. -/
def Timetable.randomMutation (t : Timetable) (rng : Rng) : Timetable × Rng :=
  let cl := t.clone rng
  let q1 := cl.2.next
  let q2 := q1.2.next
  let randomClass := t.classes.getD (randFloor q2.1 t.classes.length) ⟨"", []⟩
  let q3 := q2.2.next
  if q1.1 < mkRat 1 2 then
    rmSwap1 cl.1 randomClass.name (randFloor q3.1 DAYS) q3.2
  else
    let q4 := q3.2.next
    let day1 := randFloor q4.1 DAYS
    let q5 := q4.2.next
    let day2p := randFloor q5.1 DAYS
    rmSwap2 t cl.1 randomClass.name day1
      (if day1 == day2p then (day2p + 1) % DAYS else day2p) q5.2

/-- `Timetable.mutate`: clone; if the conflict scan finds conflicts,
pick one uniformly and repair it (relocate, else rebuild that class,
else fall back to a random mutation of the original); with no
conflicts, do a random mutation. -/
def Timetable.mutate (t : Timetable) (rng : Rng) : Timetable × Rng :=
  let cl := t.clone rng
  let conflicts := conflictScan cl.1
  if conflicts.isEmpty then
    t.randomMutation cl.2
  else
    let q := cl.2.next
    let conflict := conflicts.getD (randFloor q.1 conflicts.length) ("", 0, 0)
    let mv := moveLessonToAvailableSlot t cl.1 conflict.1 conflict.2.1 conflict.2.2
    if mv.2 then (mv.1, q.2)
    else
      let rb := rebuildClass t cl.1 conflict.1 q.2
      if rb.2.1 then (rb.1, rb.2.2) else t.randomMutation rb.2.2

/-! ### Small list helpers -/

theorem set_getD_self {α : Type} (l : List α) (i : Nat) (d : α) :
    l.set i (l.getD i d) = l := by
  induction l generalizing i with
  | nil => rfl
  | cons a l ih =>
    cases i with
    | zero => rfl
    | succ i => simp only [List.set_cons_succ, List.getD_cons_succ, ih]

theorem getD_set_self {α : Type} (l : List α) (i : Nat) (v d : α)
    (h : i < l.length) : (l.set i v).getD i d = v := by
  rw [List.getD_eq_getElem?_getD, List.getElem?_set_self h]
  rfl

theorem getD_set_ne {α : Type} (l : List α) (i j : Nat) (v d : α)
    (h : i ≠ j) : (l.set i v).getD j d = l.getD j d := by
  rw [List.getD_eq_getElem?_getD, List.getElem?_set_ne h,
    ← List.getD_eq_getElem?_getD]

theorem list_any_congr {α : Type} (l : List α) (f g : α → Bool)
    (h : ∀ x ∈ l, f x = g x) : l.any f = l.any g := by
  induction l with
  | nil => rfl
  | cons a l ih =>
    simp only [List.any_cons, h a (by simp)]
    rw [ih fun x hx => h x (by simp [hx])]

theorem list_filter_congr {α : Type} (l : List α) (f g : α → Bool)
    (h : ∀ x ∈ l, f x = g x) : l.filter f = l.filter g := by
  induction l with
  | nil => rfl
  | cons a l ih =>
    rw [List.filter_cons, List.filter_cons, h a (by simp),
      ih fun x hx => h x (by simp [hx])]

/-! ### Shuffle lemmas -/

theorem length_swapIdx {α : Type} (l : List α) (i j : Nat) (d : α) :
    (swapIdx l i j d).length = l.length := by
  simp [swapIdx]

theorem length_shuffleGo {α : Type} (d : α) (n : Nat) (l : List α) (rng : Rng) :
    ((shuffleGo d n l rng).1).length = l.length := by
  induction n generalizing l rng with
  | zero => rfl
  | succ i ih => rw [shuffleGo, ih, length_swapIdx]

theorem length_shuffleArray {α : Type} (d : α) (l : List α) (rng : Rng) :
    ((shuffleArray d l rng).1).length = l.length :=
  length_shuffleGo d _ l rng

theorem randFloor_lt (q : ℚ) (n : Nat) (hn : 0 < n) : randFloor q n < n := by
  have : n - 1 < n := by omega
  exact lt_of_le_of_lt (Nat.min_le_left _ _) this

theorem mem_swapIdx {α : Type} (l : List α) (i j : Nat) (d : α)
    (hi : i < l.length) (hj : j < l.length) :
    ∀ x ∈ swapIdx l i j d, x ∈ l := by
  intro x hx
  rcases List.mem_or_eq_of_mem_set hx with hx1 | hx1
  · rcases List.mem_or_eq_of_mem_set hx1 with hx2 | hx2
    · exact hx2
    · rw [hx2, List.getD_eq_getElem _ _ hj]
      exact List.getElem_mem hj
  · rw [hx1, List.getD_eq_getElem _ _ hi]
    exact List.getElem_mem hi

theorem mem_shuffleGo {α : Type} (d : α) (n : Nat) (l : List α) (rng : Rng)
    (h : n < l.length) : ∀ x ∈ (shuffleGo d n l rng).1, x ∈ l := by
  induction n generalizing l rng with
  | zero => intro x hx; exact hx
  | succ i ih =>
    intro x hx
    rw [shuffleGo] at hx
    have hlen : (swapIdx l (i + 1) (randFloor (rng.next.1) (i + 2)) d).length
        = l.length := length_swapIdx ..
    have hj : randFloor (rng.next.1) (i + 2) < l.length :=
      lt_of_lt_of_le (randFloor_lt _ _ (by omega)) (by omega)
    have := ih (swapIdx l (i + 1) (randFloor (rng.next.1) (i + 2)) d)
      rng.next.2 (by omega) x hx
    exact mem_swapIdx l _ _ d h hj x this

theorem mem_shuffleArray {α : Type} (d : α) (l : List α) (rng : Rng) :
    ∀ x ∈ (shuffleArray d l rng).1, x ∈ l := by
  cases l with
  | nil => intro x hx; exact hx
  | cons a as =>
    intro x hx
    exact mem_shuffleGo d _ _ rng (by simp) x hx

/-! ### Well-formedness of grids and schedules -/

/-- Well-shaped grid: exactly `DAYS` rows of `PERIODS_PER_DAY` cells,
as every grid the source ever builds is. -/
def WFGrid (g : Grid) : Prop :=
  g.length = DAYS ∧ ∀ row ∈ g, row.length = PERIODS_PER_DAY

/-- Every entry of the schedule object holds a well-shaped grid. -/
def WFSched (s : Schedule) : Prop := ∀ e ∈ s, WFGrid e.2

/-- Well-formed timetable: well-shaped grids, schedule keyed exactly by
the class names in order (as the constructor creates it). -/
def WFT (t : Timetable) : Prop :=
  WFSched t.schedule ∧ t.schedule.map Prod.fst = t.classes.map Class.name

theorem wfGrid_empty : WFGrid emptyGrid := by
  constructor
  · rfl
  · intro row hrow
    rw [List.eq_of_mem_replicate hrow]
    rfl

theorem wfSched_lookupD (s : Schedule) (k : String) (h : WFSched s) :
    WFGrid (lookupD s k) := by
  rw [lookupD]
  cases hf : s.find? fun e => e.1 == k with
  | none => exact wfGrid_empty
  | some e => exact h e (List.mem_of_find?_eq_some hf)

theorem wfGrid_copyGrid (g : Grid) : WFGrid (copyGrid g) := by
  constructor
  · simp [copyGrid]
  · intro row hrow
    rw [copyGrid] at hrow
    obtain ⟨day, _, hd⟩ := List.mem_map.mp hrow
    simp [← hd]

theorem wfGrid_setCell (g : Grid) (day period : Nat) (v : Option Lesson)
    (h : WFGrid g) : WFGrid (setCell g day period v) := by
  constructor
  · rw [setCell, List.length_set]; exact h.1
  · intro row hrow
    rcases lt_or_ge day g.length with hd | hd
    · rcases List.mem_or_eq_of_mem_set hrow with h1 | h1
      · exact h.2 row h1
      · rw [h1, List.length_set]
        exact h.2 _ (by rw [List.getD_eq_getElem _ _ hd]; exact List.getElem_mem hd)
    · rw [setCell, List.set_eq_of_length_le hd] at hrow
      exact h.2 row hrow

theorem wfGrid_compactGrid (g : Grid) (h : WFGrid g) : WFGrid (compactGrid g) := by
  constructor
  · rw [compactGrid, List.length_map]; exact h.1
  · intro row hrow
    obtain ⟨r0, hr0, heq⟩ := List.mem_map.mp hrow
    rw [← heq, compactRow_length]
    exact h.2 r0 hr0

theorem wfSched_updA (s : Schedule) (k : String) (g : Grid)
    (hs : WFSched s) (hg : WFGrid g) : WFSched (updA s k g) := by
  intro e he
  induction s with
  | nil => cases he
  | cons e0 s ih =>
    rw [updA] at he
    rcases List.mem_cons.mp he with h1 | h1
    · by_cases h0 : (e0.1 == k) = true
      · rw [if_pos h0] at h1; rw [h1]; exact hg
      · rw [if_neg h0] at h1; rw [h1]; exact hs e0 (by simp)
    · exact ih (fun e' he' => hs e' (by simp [he'])) h1

theorem keys_updA (s : Schedule) (k : String) (g : Grid) :
    (updA s k g).map Prod.fst = s.map Prod.fst := by
  induction s with
  | nil => rfl
  | cons e s ih =>
    rw [updA, List.map_cons, List.map_cons, ih]
    by_cases h0 : (e.1 == k) = true
    · rw [if_pos h0]
      have : e.1 = k := by simpa using h0
      rw [← this]
    · rw [if_neg h0]

theorem wfGrid_wfRow (g : Grid) (h : WFGrid g) (d : Nat) (hd : d < DAYS) :
    ((g.getD d []).length) = PERIODS_PER_DAY := by
  have hd' : d < g.length := h.1 ▸ hd
  rw [List.getD_eq_getElem _ _ hd']
  exact h.2 _ (List.getElem_mem hd')

/-- Combined schedule invariant: well-shaped grids and a fixed key
list. -/
def WFKeys (ns : List String) (s : Schedule) : Prop :=
  WFSched s ∧ s.map Prod.fst = ns

theorem wfKeys_updA {ns : List String} {s : Schedule} (k : String) (g : Grid)
    (h : WFKeys ns s) (hg : WFGrid g) : WFKeys ns (updA s k g) :=
  ⟨wfSched_updA s k g h.1 hg, by rw [keys_updA]; exact h.2⟩

theorem wfKeys_pass {ns : List String} (cs : List Class) (s : Schedule)
    (h : WFKeys ns s) : WFKeys ns (compactSchedulePass cs s) := by
  induction cs generalizing s with
  | nil => exact h
  | cons c cs' ih =>
    rw [compactSchedulePass_cons]
    exact ih _ (wfKeys_updA _ _ h (wfGrid_compactGrid _ (wfSched_lookupD s _ h.1)))

theorem wfKeys_placeLoop {ns : List String} (classes : List Class)
    (clsName : String) (fuel : Nat) (queue : List Lesson) (idx : Nat)
    (s : Schedule) (rng : Rng) (h : WFKeys ns s) :
    WFKeys ns (placeLoop classes clsName fuel queue idx s rng).2.1 := by
  induction fuel generalizing queue idx s rng with
  | zero => exact h
  | succ fuel ih =>
    simp only [placeLoop]
    split
    · split
      · exact ih _ _ _ _
          (wfKeys_updA _ _ h (wfGrid_setCell _ _ _ _ (wfSched_lookupD s _ h.1)))
      · exact ih _ _ _ _ h
    · exact h

theorem wfKeys_placeAnywhere {ns : List String} (s : Schedule)
    (clsName : String) (lesson : Lesson) (h : WFKeys ns s) :
    WFKeys ns (placeAnywhere s clsName lesson) := by
  rw [placeAnywhere]
  split
  · exact wfKeys_updA _ _ h (wfGrid_setCell _ _ _ _ (wfSched_lookupD s _ h.1))
  · exact h

theorem wfKeys_fold_anywhere {ns : List String} (clsName : String)
    (l : List Lesson) (s : Schedule) (h : WFKeys ns s) :
    WFKeys ns (l.foldl (fun s le => placeAnywhere s clsName le) s) := by
  induction l generalizing s with
  | nil => exact h
  | cons le l ih =>
    rw [List.foldl_cons]
    exact ih _ (wfKeys_placeAnywhere _ _ _ h)

theorem wfKeys_initClass {ns : List String} (classes : List Class)
    (s : Schedule) (rng : Rng) (cls : Class) (h : WFKeys ns s) :
    WFKeys ns (initClass classes s rng cls).1 := by
  rw [initClass]
  exact wfKeys_fold_anywhere cls.name _ _
    (wfKeys_placeLoop classes cls.name _ _ 0 s rng h)

theorem wfKeys_createEmpty (classes : List Class) :
    WFKeys (classes.map Class.name) (createEmptySchedule classes) := by
  constructor
  · intro e he
    rw [createEmptySchedule] at he
    obtain ⟨c, _, hc⟩ := List.mem_map.mp he
    rw [← hc]
    exact wfGrid_empty
  · rw [createEmptySchedule, List.map_map]
    rfl

theorem wfKeys_fold_init {ns : List String} (cls0 : List Class)
    (l : List Class) (acc : Schedule × Rng) (h : WFKeys ns acc.1) :
    WFKeys ns ((l.foldl (fun acc c => initClass cls0 acc.1 acc.2 c) acc).1) := by
  induction l generalizing acc with
  | nil => exact h
  | cons c l ih =>
    rw [List.foldl_cons]
    exact ih _ (wfKeys_initClass cls0 acc.1 acc.2 c h)

theorem wft_new (classes : List Class) (rng : Rng) :
    WFT (Timetable.new classes rng).1 := by
  have h := wfKeys_pass classes _
    (wfKeys_fold_init classes classes (createEmptySchedule classes, rng)
      (wfKeys_createEmpty classes))
  exact ⟨h.1, h.2⟩

theorem wfKeys_fold_copy (ns : List String) (t : Timetable) (l : List Class)
    (s : Schedule) (h : WFKeys ns s) :
    WFKeys ns
      (l.foldl (fun s c => updA s c.name (copyGrid (lookupD t.schedule c.name))) s) := by
  induction l generalizing s with
  | nil => exact h
  | cons c l ih =>
    rw [List.foldl_cons]
    exact ih _ (wfKeys_updA _ _ h (wfGrid_copyGrid _))

theorem wft_clone (t : Timetable) (rng : Rng) : WFT (t.clone rng).1 := by
  rw [Timetable.clone]
  have h0 := wft_new t.classes rng
  have h := wfKeys_fold_copy (t.classes.map Class.name) t t.classes
    (Timetable.new t.classes rng).1.schedule ⟨h0.1, h0.2⟩
  exact ⟨h.1, h.2⟩

theorem wft_moveLesson (orig tt : Timetable) (className : String)
    (day period : Nat) (h : WFT tt) :
    WFT (moveLessonToAvailableSlot orig tt className day period).1 := by
  rw [moveLessonToAvailableSlot]
  split
  · exact h
  · split
    · rename_i lesson hle xscrut sl hsl
      have hk := wfKeys_pass tt.classes
        (updA tt.schedule className
          (setCell (setCell (lookupD tt.schedule className) sl.day sl.period (some lesson))
            day period none))
        (wfKeys_updA _ _ ⟨h.1, h.2⟩
          (wfGrid_setCell _ _ _ _ (wfGrid_setCell _ _ _ _ (wfSched_lookupD _ _ h.1))))
      exact ⟨hk.1, hk.2⟩
    · exact h

theorem wfKeys_rebuildStep {ns : List String} (orig : Timetable)
    (className : String) (acc : Schedule × Bool × Rng) (lesson : Lesson)
    (h : WFKeys ns acc.1) :
    WFKeys ns (rebuildStep orig className acc lesson).1 := by
  simp only [rebuildStep]
  split
  · exact wfKeys_updA _ _ h (wfGrid_setCell _ _ _ _ (wfSched_lookupD _ _ h.1))
  · split
    · exact wfKeys_updA _ _ h (wfGrid_setCell _ _ _ _ (wfSched_lookupD _ _ h.1))
    · exact h

theorem wfKeys_fold_rebuild {ns : List String} (orig : Timetable)
    (className : String) (q : List Lesson) (acc : Schedule × Bool × Rng)
    (h : WFKeys ns acc.1) :
    WFKeys ns (q.foldl (rebuildStep orig className) acc).1 := by
  induction q generalizing acc with
  | nil => exact h
  | cons lesson q ih =>
    rw [List.foldl_cons]
    exact ih _ (wfKeys_rebuildStep orig className acc lesson h)

theorem wft_rebuildClass (orig tt : Timetable) (className : String) (rng : Rng)
    (h : WFT tt) : WFT (rebuildClass orig tt className rng).1 := by
  rw [rebuildClass]
  have h2 := wfKeys_pass tt.classes
    ((initQueue ((orig.classes.find? fun c => c.name == className).getD ⟨"", []⟩)).foldl
      (rebuildStep orig className) (updA tt.schedule className emptyGrid, true, rng)).1
    (wfKeys_fold_rebuild orig className _ _ (wfKeys_updA _ _ ⟨h.1, h.2⟩ wfGrid_empty))
  exact ⟨h2.1, h2.2⟩

theorem wft_updA_clone (clone : Timetable) (hc : WFT clone) (k : String)
    (g : Grid) (hg : WFGrid g) :
    WFT (⟨clone.classes, updA clone.schedule k g⟩ : Timetable) := by
  have h2 := wfKeys_updA k g
    (⟨hc.1, by rw [hc.2]⟩ : WFKeys (clone.classes.map Class.name) clone.schedule) hg
  exact ⟨h2.1, h2.2⟩

theorem wft_rmSwap1 (clone : Timetable) (hc : WFT clone) (className : String)
    (randomDay : Nat) (rng : Rng) : WFT (rmSwap1 clone className randomDay rng).1 := by
  simp only [rmSwap1]
  split
  · exact wft_updA_clone clone hc _ _
      (wfGrid_setCell _ _ _ _ (wfGrid_setCell _ _ _ _ (wfSched_lookupD _ _ hc.1)))
  · exact hc

theorem wft_rmSwap2 (orig clone : Timetable) (hc : WFT clone)
    (className : String) (day1 day2 : Nat) (rng : Rng) :
    WFT (rmSwap2 orig clone className day1 day2 rng).1 := by
  simp only [rmSwap2]
  split
  · split
    · split
      · exact wft_updA_clone clone hc _ _
          (wfGrid_setCell _ _ _ _ (wfGrid_setCell _ _ _ _ (wfSched_lookupD _ _ hc.1)))
      · exact hc
    · exact hc
  · exact hc

theorem wft_randomMutation (t : Timetable) (rng : Rng) :
    WFT (t.randomMutation rng).1 := by
  simp only [Timetable.randomMutation]
  split
  · exact wft_rmSwap1 _ (wft_clone t rng) _ _ _
  · exact wft_rmSwap2 _ _ (wft_clone t rng) _ _ _ _

theorem wft_mutate (t : Timetable) (rng : Rng) : WFT (t.mutate rng).1 := by
  simp only [Timetable.mutate]
  split
  · exact wft_randomMutation t _
  · split
    · exact wft_moveLesson t _ _ _ _ (wft_clone t rng)
    · split
      · exact wft_rebuildClass t _ _ _ (wft_clone t rng)
      · exact wft_randomMutation t _

/-! ### Clone reads back the original grids -/

theorem hasKey_iff_keys (s : Schedule) (k : String) :
    hasKey s k = true ↔ k ∈ s.map Prod.fst := by
  induction s with
  | nil => simp [hasKey]
  | cons e s ih =>
    simp only [hasKey, List.any_cons, List.map_cons, List.mem_cons,
      Bool.or_eq_true_iff] at ih ⊢
    constructor
    · rintro (h | h)
      · exact Or.inl (beq_iff_eq.mp h).symm
      · exact Or.inr (ih.mp h)
    · rintro (h | h)
      · exact Or.inl (beq_iff_eq.mpr h.symm)
      · exact Or.inr (ih.mpr h)

theorem lookupD_fold_not_mem (f : String → Grid) (l : List Class) (s : Schedule)
    (k : String) (h : ∀ c ∈ l, c.name ≠ k) :
    lookupD (l.foldl (fun s c => updA s c.name (f c.name)) s) k = lookupD s k := by
  induction l generalizing s with
  | nil => rfl
  | cons c l ih =>
    rw [List.foldl_cons, ih _ fun c' hc' => h c' (by simp [hc']),
      lookupD_updA_ne _ _ _ _ fun hk => h c (by simp) hk.symm]

theorem lookupD_fold_updA_fn (f : String → Grid) (l : List Class) (s : Schedule)
    (k : String) (hhas : hasKey s k = true) (hmem : ∃ c ∈ l, c.name = k) :
    lookupD (l.foldl (fun s c => updA s c.name (f c.name)) s) k = f k := by
  induction l generalizing s with
  | nil => obtain ⟨c, hc, _⟩ := hmem; cases hc
  | cons c l ih =>
    rw [List.foldl_cons]
    by_cases hck : c.name = k
    · by_cases hrest : ∃ c' ∈ l, c'.name = k
      · exact ih _ (by rw [hasKey_updA]; exact hhas) hrest
      · push_neg at hrest
        rw [lookupD_fold_not_mem f l _ k hrest, hck,
          lookupD_updA_self _ _ _ hhas]
    · rcases hmem with ⟨c', hc', hck'⟩
      rcases List.mem_cons.mp hc' with h1 | h1
      · exact absurd (h1 ▸ hck') hck
      · exact ih _ (by rw [hasKey_updA]; exact hhas) ⟨c', h1, hck'⟩

theorem list_ext_getD {α : Type} (l : List α) (n : Nat) (d : α)
    (h : l.length = n) : (List.range n).map (fun i => l.getD i d) = l := by
  induction l generalizing n with
  | nil => rw [← h]; rfl
  | cons a l ih =>
    rw [← h]
    simp only [List.length_cons, List.range_succ_eq_map, List.map_cons,
      List.map_map]
    rw [List.getD_cons_zero]
    congr 1
    have : ((fun i => (a :: l).getD i d) ∘ Nat.succ) = fun i => l.getD i d := by
      funext i
      simp [Function.comp, List.getD_cons_succ]
    rw [this, ih l.length rfl]

theorem copyGrid_eq_self (g : Grid) (h : WFGrid g) : copyGrid g = g := by
  rw [copyGrid]
  have hrow : ∀ d ∈ List.range DAYS,
      ((List.range PERIODS_PER_DAY).map fun period => getCell g d period) =
        g.getD d [] := by
    intro d hd
    have hd5 : d < g.length := h.1 ▸ List.mem_range.mp hd
    have hlen : (g.getD d []).length = PERIODS_PER_DAY := by
      rw [List.getD_eq_getElem _ _ hd5]
      exact h.2 _ (List.getElem_mem hd5)
    exact list_ext_getD (g.getD d []) PERIODS_PER_DAY none hlen
  rw [List.map_congr_left hrow]
  exact list_ext_getD g DAYS [] h.1

theorem clone_classes (t : Timetable) (rng : Rng) :
    (t.clone rng).1.classes = t.classes := by
  rw [Timetable.clone]

theorem clone_lookupD (t : Timetable) (rng : Rng) (hwf : WFT t) (c : Class)
    (hc : c ∈ t.classes) :
    lookupD (t.clone rng).1.schedule c.name = lookupD t.schedule c.name := by
  have h1 := lookupD_fold_updA_fn (fun n => copyGrid (lookupD t.schedule n))
    t.classes (Timetable.new t.classes rng).1.schedule c.name
    (by rw [hasKey_iff_keys, (wft_new t.classes rng).2]
        exact List.mem_map.mpr ⟨c, hc, rfl⟩)
    ⟨c, hc, rfl⟩
  have h2 : lookupD (t.clone rng).1.schedule c.name
      = copyGrid (lookupD t.schedule c.name) := h1
  rw [h2]
  exact copyGrid_eq_self _ (wfSched_lookupD _ _ hwf.1)

/-! ### Metric congruence: metrics read only the class-name grids -/

theorem slotLessons_congr (t t' : Timetable) (hcl : t'.classes = t.classes)
    (hlk : ∀ c ∈ t.classes, lookupD t'.schedule c.name = lookupD t.schedule c.name)
    (day period : Nat) : slotLessons t' day period = slotLessons t day period := by
  rw [slotLessons, slotLessons, hcl]
  exact List.filterMap_congr fun c hc => by rw [hlk c hc]

theorem intConflicts_congr (t t' : Timetable) (hcl : t'.classes = t.classes)
    (hlk : ∀ c ∈ t.classes, lookupD t'.schedule c.name = lookupD t.schedule c.name) :
    intConflicts t' = intConflicts t := by
  rw [intConflicts, intConflicts]
  congr 1
  refine List.map_congr_left fun day _ => ?_
  congr 1
  refine List.map_congr_left fun period _ => ?_
  rw [slotConflicts, slotConflicts, slotLessons_congr t t' hcl hlk]

theorem adjacencyCount_congr (t t' : Timetable) (hcl : t'.classes = t.classes)
    (hlk : ∀ c ∈ t.classes, lookupD t'.schedule c.name = lookupD t.schedule c.name) :
    adjacencyCount t' = adjacencyCount t := by
  rw [adjacencyCount, adjacencyCount, hcl]
  congr 1
  refine List.map_congr_left fun c hc => ?_
  rw [hlk c hc]

theorem countUnscheduled_congr (t t' : Timetable) (hcl : t'.classes = t.classes)
    (hlk : ∀ c ∈ t.classes, lookupD t'.schedule c.name = lookupD t.schedule c.name) :
    t'.countUnscheduledPeriods = t.countUnscheduledPeriods := by
  rw [Timetable.countUnscheduledPeriods, Timetable.countUnscheduledPeriods, hcl]
  congr 1
  refine List.map_congr_left fun c hc => ?_
  rw [hlk c hc]

theorem countEmptySpace_congr (t t' : Timetable) (hcl : t'.classes = t.classes)
    (hlk : ∀ c ∈ t.classes, lookupD t'.schedule c.name = lookupD t.schedule c.name) :
    t'.countEmptySpacePenalty = t.countEmptySpacePenalty := by
  rw [Timetable.countEmptySpacePenalty, Timetable.countEmptySpacePenalty, hcl]
  congr 1
  refine List.map_congr_left fun c hc => ?_
  rw [hlk c hc]

theorem countFreeFirst_congr (t t' : Timetable) (hcl : t'.classes = t.classes)
    (hlk : ∀ c ∈ t.classes, lookupD t'.schedule c.name = lookupD t.schedule c.name) :
    t'.countFreeFirstPeriods = t.countFreeFirstPeriods := by
  rw [Timetable.countFreeFirstPeriods, Timetable.countFreeFirstPeriods, hcl]
  congr 1
  refine List.map_congr_left fun c hc => ?_
  rw [hlk c hc]

theorem calculateFitness_congr (t t' : Timetable) (hcl : t'.classes = t.classes)
    (hlk : ∀ c ∈ t.classes, lookupD t'.schedule c.name = lookupD t.schedule c.name) :
    calculateFitness t' = calculateFitness t := by
  rw [calculateFitness, calculateFitness, Timetable.countTeacherConflicts,
    Timetable.countTeacherConflicts, intConflicts_congr t t' hcl hlk,
    adjacencyCount_congr t t' hcl hlk, countUnscheduled_congr t t' hcl hlk,
    countEmptySpace_congr t t' hcl hlk, countFreeFirst_congr t t' hcl hlk]

theorem validateNoGaps_congr (t t' : Timetable) (hcl : t'.classes = t.classes)
    (hlk : ∀ c ∈ t.classes, lookupD t'.schedule c.name = lookupD t.schedule c.name) :
    t'.validateNoGaps = t.validateNoGaps := by
  rw [Timetable.validateNoGaps, Timetable.validateNoGaps, hcl]
  congr 1
  refine list_any_congr _ _ _ fun c hc => ?_
  rw [hlk c hc]

theorem calculateFitness_clone (t : Timetable) (rng : Rng) (h : WFT t) :
    calculateFitness (t.clone rng).1 = calculateFitness t :=
  calculateFitness_congr t _ (clone_classes t rng) fun c hc => clone_lookupD t rng h c hc

theorem countEmptySpace_clone (t : Timetable) (rng : Rng) (h : WFT t) :
    (t.clone rng).1.countEmptySpacePenalty = t.countEmptySpacePenalty :=
  countEmptySpace_congr t _ (clone_classes t rng) fun c hc => clone_lookupD t rng h c hc

theorem validateNoGaps_clone (t : Timetable) (rng : Rng) (h : WFT t) :
    (t.clone rng).1.validateNoGaps = t.validateNoGaps :=
  validateNoGaps_congr t _ (clone_classes t rng) fun c hc => clone_lookupD t rng h c hc

/-! ### Occupancy patterns: swaps preserve them -/

theorem pattern_setCell (g : Grid) (day period : Nat) (v : Option Lesson)
    (h : v.isSome = (getCell g day period).isSome) :
    ∀ d, ((setCell g day period v).getD d []).map (fun c => c.isSome) =
      (g.getD d []).map fun c => c.isSome := by
  intro d
  rcases lt_or_ge day g.length with hday | hday
  · by_cases hd : d = day
    · subst hd
      rw [setCell, getD_set_self _ _ _ _ hday, List.map_set]
      rcases lt_or_ge period (g.getD d []).length with hp | hp
      · have hval : ((g.getD d []).map fun c => c.isSome).getD period false =
            ((g.getD d []).getD period none).isSome := by
          rw [List.getD_eq_getElem _ _ (by simpa using hp), List.getElem_map,
            List.getD_eq_getElem _ _ hp]
        rw [show v.isSome = ((g.getD d []).map fun c => c.isSome).getD period false
            from h.trans hval.symm]
        exact set_getD_self _ _ _
      · rw [List.set_eq_of_length_le (by simpa using hp)]
    · rw [setCell, getD_set_ne _ _ _ _ _ fun hh => hd hh.symm]
  · rw [setCell, List.set_eq_of_length_le hday]

theorem isSome_getD_of_pattern (row row' : List (Option Lesson))
    (h : row'.map (fun c => c.isSome) = row.map fun c => c.isSome) (p : Nat) :
    (row'.getD p none).isSome = (row.getD p none).isSome := by
  have hlen : row'.length = row.length := by
    have := congrArg List.length h
    simpa using this
  rcases lt_or_ge p row.length with hp | hp
  · have h2 : (row'.map fun c => c.isSome).getD p false =
        (row.map fun c => c.isSome).getD p false := by rw [h]
    rw [List.getD_eq_getElem _ _ (by simpa [hlen] using hp), List.getElem_map,
      List.getD_eq_getElem _ _ (by simpa using hp), List.getElem_map] at h2
    rw [List.getD_eq_getElem _ _ (by omega), List.getD_eq_getElem _ _ hp]
    exact h2
  · rw [List.getD_eq_default _ _ (by omega), List.getD_eq_default _ _ hp]

theorem any_isSome_of_pattern (cs cs' : List (Option Lesson))
    (h : cs'.map (fun x => x.isSome) = cs.map fun x => x.isSome) :
    cs'.any (fun x => x.isSome) = cs.any fun x => x.isSome := by
  induction cs generalizing cs' with
  | nil =>
    cases cs' with
    | nil => rfl
    | cons a' l' => simp at h
  | cons a l ih =>
    cases cs' with
    | nil => simp at h
    | cons a' l' =>
      simp only [List.map_cons, List.cons.injEq] at h
      rw [List.any_cons, List.any_cons, h.1, ih l' h.2]

theorem rowHasGap_of_pattern (row row' : List (Option Lesson))
    (h : row'.map (fun c => c.isSome) = row.map fun c => c.isSome) :
    rowHasGap row' = rowHasGap row := by
  induction row generalizing row' with
  | nil =>
    cases row' with
    | nil => rfl
    | cons c cs => simp at h
  | cons c cs ih =>
    cases row' with
    | nil => simp at h
    | cons c' cs' =>
      simp only [List.map_cons, List.cons.injEq] at h
      simp only [rowHasGap, List.dropWhile_cons, h.1]
      have hany : cs'.any (fun x => x.isSome) = cs.any fun x => x.isSome :=
        any_isSome_of_pattern cs cs' h.2
      cases hc : c.isSome
      · rw [if_neg Bool.false_ne_true, if_neg Bool.false_ne_true,
          List.any_cons, List.any_cons, h.1, hc, hany]
      · rw [if_pos rfl, if_pos rfl]
        exact ih cs' h.2

/-! ### Compaction yields gap-free timetables -/

theorem validateNoGaps_mk_pass (classes : List Class) (s : Schedule) :
    (Timetable.mk classes (compactSchedulePass classes s)).validateNoGaps = true := by
  rw [Timetable.validateNoGaps]
  simp only [Bool.not_eq_true']
  rw [List.any_eq_false]
  intro c hc
  simp only [Bool.not_eq_true]
  rw [List.any_eq_false]
  intro d _
  simp only [Bool.not_eq_true]
  rw [lookupD_compactSchedulePass, if_pos (List.mem_map.mpr ⟨c, hc, rfl⟩),
    getD_map_compactRow]
  exact rowHasGap_compactRow _

theorem validateNoGaps_pattern (t t' : Timetable) (hcl : t'.classes = t.classes)
    (hp : ∀ c ∈ t.classes, ∀ d,
      ((lookupD t'.schedule c.name).getD d []).map (fun x => x.isSome) =
        ((lookupD t.schedule c.name).getD d []).map fun x => x.isSome) :
    t'.validateNoGaps = t.validateNoGaps := by
  rw [Timetable.validateNoGaps, Timetable.validateNoGaps, hcl]
  congr 1
  refine list_any_congr _ _ _ fun c hc => ?_
  refine list_any_congr _ _ _ fun d _ => ?_
  exact rowHasGap_of_pattern _ _ (hp c hc d)

theorem getD_mem {α : Type} (l : List α) (i : Nat) (d : α) (h : i < l.length) :
    l.getD i d ∈ l := by
  rw [List.getD_eq_getElem _ _ h]
  exact List.getElem_mem h

theorem pattern_swapCells (g : Grid) (d1 p1 d2 p2 : Nat) (v1 v2 : Option Lesson)
    (h1 : v2.isSome = (getCell g d1 p1).isSome)
    (h2 : v1.isSome = (getCell g d2 p2).isSome) :
    ∀ d, ((setCell (setCell g d1 p1 v2) d2 p2 v1).getD d []).map (fun c => c.isSome) =
      (g.getD d []).map fun c => c.isSome := by
  intro d
  have hstep1 := pattern_setCell g d1 p1 v2 h1
  have hcell : (getCell (setCell g d1 p1 v2) d2 p2).isSome =
      (getCell g d2 p2).isSome :=
    isSome_getD_of_pattern _ _ (hstep1 d2) p2
  rw [pattern_setCell _ d2 p2 v1 (h2.trans hcell.symm) d, hstep1 d]

theorem pattern_updA_lookup (s : Schedule) (k : String) (g1 : Grid)
    (hpat : ∀ d, (g1.getD d []).map (fun c => c.isSome) =
      ((lookupD s k).getD d []).map fun c => c.isSome)
    (k' : String) (d : Nat) :
    ((lookupD (updA s k g1) k').getD d []).map (fun c => c.isSome) =
      ((lookupD s k').getD d []).map fun c => c.isSome := by
  by_cases hk : k' = k
  · subst hk
    cases hh : hasKey s k'
    · rw [updA_of_not_hasKey _ _ _ hh]
    · rw [lookupD_updA_self _ _ _ hh]
      exact hpat d
  · rw [lookupD_updA_ne _ _ _ _ hk]

theorem occupiedCount_of_pattern (g g' : Grid)
    (h : ∀ d, (g'.getD d []).map (fun c => c.isSome) =
      (g.getD d []).map fun c => c.isSome) :
    occupiedCount g' = occupiedCount g := by
  rw [occupiedCount, occupiedCount]
  congr 1
  refine List.map_congr_left fun day _ => ?_
  congr 1
  refine list_filter_congr _ _ _ fun p _ => ?_
  exact isSome_getD_of_pattern _ _ (h day) p

theorem shuffled_getD_isSome (g : Grid) (rd : Nat) (rng : Rng) (i : Nat)
    (hi : i < ((List.range PERIODS_PER_DAY).filter fun p =>
      (getCell g rd p).isSome).length) :
    (getCell g rd
      (((shuffleArray 0 ((List.range PERIODS_PER_DAY).filter fun p =>
        (getCell g rd p).isSome) rng).1).getD i 0)).isSome = true := by
  have hlen := length_shuffleArray 0
    ((List.range PERIODS_PER_DAY).filter fun p => (getCell g rd p).isSome) rng
  have hmem := getD_mem _ i 0 (by rw [hlen]; exact hi)
  have hmem2 := mem_shuffleArray 0 _ rng _ hmem
  exact (List.mem_filter.mp hmem2).2

theorem rmSwap1_pattern (clone : Timetable) (className : String)
    (randomDay : Nat) (rng : Rng) :
    (rmSwap1 clone className randomDay rng).1.classes = clone.classes
    ∧ ∀ k d,
      ((lookupD (rmSwap1 clone className randomDay rng).1.schedule k).getD d []).map
          (fun c => c.isSome) =
        ((lookupD clone.schedule k).getD d []).map fun c => c.isSome := by
  simp only [rmSwap1]
  split
  · rename_i hlen
    refine ⟨rfl, fun k d => ?_⟩
    refine pattern_updA_lookup clone.schedule className _
      (fun d' => pattern_swapCells _ _ _ _ _ _ _ ?_ ?_ d') k d
    · rw [shuffled_getD_isSome _ _ _ 1 (by omega),
        shuffled_getD_isSome _ _ _ 0 (by omega)]
    · rw [shuffled_getD_isSome _ _ _ 0 (by omega),
        shuffled_getD_isSome _ _ _ 1 (by omega)]
  · exact ⟨rfl, fun k d => rfl⟩

theorem rmSwap2_pattern (orig clone : Timetable) (className : String)
    (day1 day2 : Nat) (rng : Rng) :
    (rmSwap2 orig clone className day1 day2 rng).1.classes = clone.classes
    ∧ ∀ k d,
      ((lookupD (rmSwap2 orig clone className day1 day2 rng).1.schedule k).getD d []).map
          (fun c => c.isSome) =
        ((lookupD clone.schedule k).getD d []).map fun c => c.isSome := by
  simp only [rmSwap2]
  split
  · split
    · split
      · rename_i hl1 hl2 hguard
        refine ⟨rfl, fun k d => ?_⟩
        refine pattern_updA_lookup clone.schedule className _
          (fun d' => pattern_swapCells _ _ _ _ _ _ _ ?_ ?_ d') k d
        · rw [hl1]; rfl
        · rw [hl2]; rfl
      · exact ⟨rfl, fun k d => rfl⟩
    · exact ⟨rfl, fun k d => rfl⟩
  · exact ⟨rfl, fun k d => rfl⟩

theorem randomMutation_pattern (t : Timetable) (rng : Rng) (hwf : WFT t) :
    (t.randomMutation rng).1.classes = t.classes
    ∧ ∀ c ∈ t.classes, ∀ d,
      ((lookupD (t.randomMutation rng).1.schedule c.name).getD d []).map
          (fun x => x.isSome) =
        ((lookupD t.schedule c.name).getD d []).map fun x => x.isSome := by
  have hclone := fun c hc => clone_lookupD t rng hwf c hc
  simp only [Timetable.randomMutation]
  split
  · obtain ⟨h1, h2⟩ := rmSwap1_pattern (t.clone rng).1 _ _ _
    refine ⟨h1.trans (clone_classes t rng), fun c hc d => ?_⟩
    rw [h2 c.name d, hclone c hc]
  · obtain ⟨h1, h2⟩ := rmSwap2_pattern t (t.clone rng).1 _ _ _ _
    refine ⟨h1.trans (clone_classes t rng), fun c hc d => ?_⟩
    rw [h2 c.name d, hclone c hc]

theorem moveLesson_moved_shape (orig tt : Timetable) (className : String)
    (day period : Nat) :
    (moveLessonToAvailableSlot orig tt className day period).2 = false
    ∨ (moveLessonToAvailableSlot orig tt className day period).1.validateNoGaps = true := by
  rw [moveLessonToAvailableSlot]
  split
  · exact Or.inl rfl
  · split
    · exact Or.inr (validateNoGaps_mk_pass _ _)
    · exact Or.inl rfl

theorem gapfree_rebuildClass (orig tt : Timetable) (className : String)
    (rng : Rng) : (rebuildClass orig tt className rng).1.validateNoGaps = true := by
  rw [rebuildClass]
  exact validateNoGaps_mk_pass _ _

theorem gapfree_randomMutation (t : Timetable) (rng : Rng) (hwf : WFT t)
    (hv : t.validateNoGaps = true) :
    (t.randomMutation rng).1.validateNoGaps = true := by
  obtain ⟨h1, h2⟩ := randomMutation_pattern t rng hwf
  rw [validateNoGaps_pattern t _ h1 h2]
  exact hv

theorem gapfree_mutate (t : Timetable) (rng : Rng) (hwf : WFT t)
    (hv : t.validateNoGaps = true) : (t.mutate rng).1.validateNoGaps = true := by
  simp only [Timetable.mutate]
  split
  · exact gapfree_randomMutation t _ hwf hv
  · split
    · rename_i hne hmv
      rcases moveLesson_moved_shape t (t.clone rng).1 _ _ _ with hh | hh
      · rw [hmv] at hh; cases hh
      · exact hh
    · split
      · exact gapfree_rebuildClass _ _ _ _
      · exact gapfree_randomMutation t _ hwf hv

/-- The all-zeros random stream, used for concrete runs. -/
def rngZero : Rng := ⟨fun _ => 0, 0⟩

/-- Schedules reachable from the constructive initialiser (the
`Timetable` constructor) by any finite sequence of `mutate()` calls,
over any draws of the ambient random stream. -/
inductive Reachable (classes : List Class) : Timetable → Prop where
  | init (rng : Rng) : Reachable classes (Timetable.new classes rng).1
  | step {t : Timetable} (rng : Rng) :
      Reachable classes t → Reachable classes (t.mutate rng).1

/-- C4: every schedule reachable from the constructive initialiser by
any finite sequence of `mutate()` calls is gap-free: in each class's
row for each day, every occupied cell precedes every empty cell
(`validateNoGaps` holds). -/
theorem C4_reachable_gap_free (classes : List Class) (t : Timetable)
    (h : Reachable classes t) : t.validateNoGaps = true := by
  have h2 : WFT t ∧ t.validateNoGaps = true := by
    induction h with
    | init rng => exact ⟨wft_new classes rng, validateNoGaps_mk_pass classes _⟩
    | step rng hr ih => exact ⟨wft_mutate _ _, gapfree_mutate _ _ ih.1 ih.2⟩
  exact h2.2

/-- Witness for C4: a two-step reachable schedule (initialiser plus one
mutation) over the all-zeros stream is gap-free. -/
theorem C4_reachable_gap_free_witness :
    ((Timetable.new [clsEx] rngZero).1.mutate rngZero).1.validateNoGaps = true :=
  C4_reachable_gap_free [clsEx] _ (Reachable.step rngZero (Reachable.init rngZero))

/-! ### Occupied-cell counts (C5) -/

/-- Per-class occupied-cell count, the quantity claim C5 is about. -/
def classCount (t : Timetable) (k : String) : Nat :=
  occupiedCount (lookupD t.schedule k)

/-- Occupied-cell count of one day row, read through `getCell`. -/
def rowCount (g : Grid) (day : Nat) : Nat :=
  ((List.range PERIODS_PER_DAY).filter fun period =>
    (getCell g day period).isSome).length

theorem occupiedCount_eq_sum_rowCount (g : Grid) :
    occupiedCount g = ((List.range DAYS).map fun day => rowCount g day).sum := rfl

theorem getCell_setCell_ne (g : Grid) (day period d p : Nat) (v : Option Lesson)
    (h : d ≠ day ∨ p ≠ period) :
    getCell (setCell g day period v) d p = getCell g d p := by
  rcases h with h | h
  · rw [getCell, setCell, getD_set_ne _ _ _ _ _ fun he => h he.symm]
    rfl
  · rw [getCell, setCell]
    by_cases hdd : day = d
    · subst hdd
      rcases lt_or_ge day g.length with hd | hd
      · rw [getD_set_self _ _ _ _ hd, getD_set_ne _ _ _ _ _ fun he => h he.symm]
        rfl
      · rw [List.set_eq_of_length_le hd]
        rfl
    · rw [getD_set_ne _ _ _ _ _ hdd]
      rfl

theorem getCell_setCell_self (g : Grid) (day period : Nat) (v : Option Lesson)
    (hd : day < g.length) (hp : period < (g.getD day []).length) :
    getCell (setCell g day period v) day period = v := by
  rw [getCell, setCell, getD_set_self _ _ _ _ hd, getD_set_self _ _ _ _ hp]

/-- A cell read that returns a lesson is inside the 5 × 6 frame of a
well-shaped grid. -/
theorem getCell_some_bounds (g : Grid) (day period : Nat) (hwf : WFGrid g)
    (h : (getCell g day period).isSome = true) :
    day < DAYS ∧ period < PERIODS_PER_DAY := by
  have hd : day < DAYS := by
    by_contra hd
    have hrow : g.getD day [] = [] := by
      rw [List.getD_eq_default _ _ (by rw [hwf.1]; omega)]
    rw [getCell, hrow] at h
    exact Bool.false_ne_true h
  refine ⟨hd, ?_⟩
  by_contra hp
  rw [getCell] at h
  rw [List.getD_eq_default _ _ (by rw [wfGrid_wfRow g hwf day hd]; omega)] at h
  exact Bool.false_ne_true h

/-- Flipping one position of a predicate from false to true adds one to
the filtered count over `range n`. -/
theorem filter_update_count (n p : Nat) (f g : Nat → Bool) (hp : p < n)
    (hagree : ∀ q, q ≠ p → g q = f q) (hf : f p = false) (hg : g p = true) :
    ((List.range n).filter g).length = ((List.range n).filter f).length + 1 := by
  induction n with
  | zero => cases hp
  | succ n ih =>
    rw [List.range_succ, List.filter_append, List.filter_append,
      List.length_append, List.length_append]
    by_cases hpn : p = n
    · subst hpn
      rw [list_filter_congr (List.range p) g f
        fun q hq => hagree q (Nat.ne_of_lt (List.mem_range.mp hq))]
      have h1 : List.filter g [p] = [p] := by
        rw [List.filter_cons, if_pos hg]
        rfl
      have h2 : List.filter f [p] = [] := by
        rw [List.filter_cons, if_neg (by rw [hf]; exact Bool.false_ne_true)]
        rfl
      rw [h1, h2]
      rfl
    · have h1 : List.filter g [n] = List.filter f [n] := by
        rw [List.filter_cons, List.filter_cons, hagree n fun he => hpn he.symm]
        rfl
      rw [h1, ih (by omega)]
      omega

/-- Raising one position of a `Nat`-valued function by one raises the
mapped sum over `range n` by one. -/
theorem sum_update_one (n d : Nat) (f g : Nat → Nat) (hd : d < n)
    (hagree : ∀ q, q ≠ d → g q = f q) (hstep : g d = f d + 1) :
    ((List.range n).map g).sum = ((List.range n).map f).sum + 1 := by
  induction n with
  | zero => cases hd
  | succ n ih =>
    rw [List.range_succ, List.map_append, List.map_append,
      List.sum_append, List.sum_append]
    by_cases hdn : d = n
    · subst hdn
      rw [List.map_congr_left
        fun q hq => hagree q (Nat.ne_of_lt (List.mem_range.mp hq))]
      simp only [List.map_cons, List.map_nil, List.sum_cons, List.sum_nil, hstep]
      omega
    · have h1 : List.map g [n] = List.map f [n] := by
        rw [List.map_cons, List.map_cons, hagree n fun he => hdn he.symm]
        rfl
      rw [h1, ih (by omega)]
      omega

theorem rowCount_setCell_ne (g : Grid) (day period : Nat) (v : Option Lesson)
    (q : Nat) (hq : q ≠ day) :
    rowCount (setCell g day period v) q = rowCount g q := by
  simp only [rowCount]
  exact congrArg List.length (list_filter_congr _ _ _ fun p _ =>
    congrArg Option.isSome (getCell_setCell_ne g day period q p v (Or.inl hq)))

theorem rowCount_setCell_some (g : Grid) (day period : Nat) (x : Lesson)
    (hwf : WFGrid g) (hd : day < DAYS) (hp : period < PERIODS_PER_DAY)
    (hcell : getCell g day period = none) :
    rowCount (setCell g day period (some x)) day = rowCount g day + 1 := by
  simp only [rowCount]
  refine filter_update_count PERIODS_PER_DAY period _ _ hp ?_ ?_ ?_
  · intro q hq
    exact congrArg Option.isSome (getCell_setCell_ne g day period day q _ (Or.inr hq))
  · exact congrArg Option.isSome hcell
  · exact congrArg Option.isSome (getCell_setCell_self g day period (some x)
      (hwf.1 ▸ hd) (by rw [wfGrid_wfRow g hwf day hd]; exact hp))

theorem rowCount_setCell_none (g : Grid) (day period : Nat)
    (hwf : WFGrid g) (hd : day < DAYS) (hp : period < PERIODS_PER_DAY)
    (hcell : (getCell g day period).isSome = true) :
    rowCount g day = rowCount (setCell g day period none) day + 1 := by
  simp only [rowCount]
  refine filter_update_count PERIODS_PER_DAY period _ _ hp ?_ ?_ ?_
  · intro q hq
    exact (congrArg Option.isSome
      (getCell_setCell_ne g day period day q _ (Or.inr hq))).symm
  · exact congrArg Option.isSome (getCell_setCell_self g day period none
      (hwf.1 ▸ hd) (by rw [wfGrid_wfRow g hwf day hd]; exact hp))
  · exact hcell

theorem occupiedCount_setCell_some (g : Grid) (day period : Nat) (x : Lesson)
    (hwf : WFGrid g) (hd : day < DAYS) (hp : period < PERIODS_PER_DAY)
    (hcell : getCell g day period = none) :
    occupiedCount (setCell g day period (some x)) = occupiedCount g + 1 := by
  rw [occupiedCount_eq_sum_rowCount, occupiedCount_eq_sum_rowCount]
  exact sum_update_one DAYS day (rowCount g)
    (rowCount (setCell g day period (some x))) hd
    (fun q hq => rowCount_setCell_ne g day period (some x) q hq)
    (rowCount_setCell_some g day period x hwf hd hp hcell)

theorem occupiedCount_setCell_none (g : Grid) (day period : Nat)
    (hwf : WFGrid g) (hd : day < DAYS) (hp : period < PERIODS_PER_DAY)
    (hcell : (getCell g day period).isSome = true) :
    occupiedCount g = occupiedCount (setCell g day period none) + 1 := by
  rw [occupiedCount_eq_sum_rowCount, occupiedCount_eq_sum_rowCount]
  exact sum_update_one DAYS day (rowCount (setCell g day period none))
    (rowCount g) hd
    (fun q hq => (rowCount_setCell_ne g day period none q hq).symm)
    (rowCount_setCell_none g day period hwf hd hp hcell)

theorem occupiedCount_le (g : Grid) : occupiedCount g ≤ 30 := by
  rw [occupiedCount]
  refine le_trans (List.sum_le_sum fun i _ => List.length_filter_le _ _) ?_
  rfl

theorem occupiedCount_eq_30_of_full (g : Grid)
    (h : ∀ day ∈ List.range DAYS, ∀ period ∈ List.range PERIODS_PER_DAY,
      (getCell g day period).isSome = true) :
    occupiedCount g = 30 := by
  rw [occupiedCount]
  have hrow : ∀ day ∈ List.range DAYS,
      (((List.range PERIODS_PER_DAY).filter fun period =>
        (getCell g day period).isSome).length) = 6 := by
    intro day hd
    rw [List.filter_eq_self.mpr fun p hp => h day hd p hp]
    rfl
  rw [List.map_congr_left hrow]
  rfl

theorem mem_allSlots (day period : Nat) (hd : day < DAYS)
    (hp : period < PERIODS_PER_DAY) : (⟨day, period⟩ : TimeSlot) ∈ allSlots := by
  rw [allSlots]
  exact List.mem_flatMap.mpr ⟨day, List.mem_range.mpr hd,
    List.mem_map.mpr ⟨period, List.mem_range.mpr hp, rfl⟩⟩

theorem mem_allSlots_bounds (sl : TimeSlot) (h : sl ∈ allSlots) :
    sl.day < DAYS ∧ sl.period < PERIODS_PER_DAY := by
  rw [allSlots] at h
  obtain ⟨d, hd, hmem⟩ := List.mem_flatMap.mp h
  obtain ⟨p, hp, he⟩ := List.mem_map.mp hmem
  rw [← he]
  exact ⟨List.mem_range.mp hd, List.mem_range.mp hp⟩

theorem range_filter_getD_count (row : List (Option Lesson)) :
    ((List.range row.length).filter fun p => (row.getD p none).isSome).length
      = row.countP fun c => c.isSome := by
  induction row with
  | nil => rfl
  | cons a l ih =>
    have hcomp : ((((List.range l.length).map Nat.succ).filter
        fun p => ((a :: l).getD p none).isSome).length)
        = (((List.range l.length).filter fun p => (l.getD p none).isSome).length) := by
      rw [List.filter_map, List.length_map]
      exact congrArg List.length (list_filter_congr _ _ _ fun q _ => rfl)
    rw [List.length_cons, List.range_succ_eq_map]
    cases a with
    | none =>
      show (((List.range l.length).map Nat.succ).filter
          fun p => (((none : Option Lesson) :: l).getD p none).isSome).length
        = List.countP (fun c => c.isSome) l
      rw [hcomp, ih]
    | some x =>
      rw [List.countP_cons]
      show (0 :: ((List.range l.length).map Nat.succ).filter
          fun p => ((some x :: l).getD p none).isSome).length
        = List.countP (fun c => c.isSome) l + 1
      rw [List.length_cons, hcomp, ih]

theorem countP_compactRow (row : List (Option Lesson)) :
    ((compactRow row).countP fun c => c.isSome) = row.countP fun c => c.isSome := by
  rw [compactRow, List.countP_append]
  have h1 : ((List.replicate (row.length - (row.filter fun c => c.isSome).length)
      (none : Option Lesson)).countP fun c => c.isSome) = 0 := by
    rw [List.countP_eq_length_filter, filter_isSome_replicate_none]
    rfl
  have h2 : ((row.filter fun c => c.isSome).countP fun c => c.isSome)
      = row.countP fun c => c.isSome := by
    rw [List.countP_eq_length_filter, List.countP_eq_length_filter,
      List.filter_filter]
    exact congrArg List.length (list_filter_congr _ _ _ fun x _ => by
      cases x <;> rfl)
  rw [h1, h2]
  rfl

theorem filter_range_compactRow (row : List (Option Lesson))
    (hlen : row.length = PERIODS_PER_DAY) :
    (((List.range PERIODS_PER_DAY).filter fun p =>
      ((compactRow row).getD p none).isSome).length)
      = ((List.range PERIODS_PER_DAY).filter fun p =>
        (row.getD p none).isSome).length := by
  have h1 : List.range PERIODS_PER_DAY = List.range (compactRow row).length := by
    rw [compactRow_length, hlen]
  have h2 : List.range PERIODS_PER_DAY = List.range row.length := by
    rw [hlen]
  calc (((List.range PERIODS_PER_DAY).filter fun p =>
        ((compactRow row).getD p none).isSome).length)
      = (compactRow row).countP (fun c => c.isSome) := by
        rw [h1]; exact range_filter_getD_count _
    _ = row.countP (fun c => c.isSome) := countP_compactRow row
    _ = ((List.range PERIODS_PER_DAY).filter fun p =>
        (row.getD p none).isSome).length := by
        rw [h2]; exact (range_filter_getD_count row).symm

theorem occupiedCount_compactGrid (g : Grid) (hwf : WFGrid g) :
    occupiedCount (compactGrid g) = occupiedCount g := by
  rw [occupiedCount, occupiedCount]
  congr 1
  refine List.map_congr_left fun day hday => ?_
  show (((List.range PERIODS_PER_DAY).filter fun period =>
      (getCell (compactGrid g) day period).isSome).length)
    = ((List.range PERIODS_PER_DAY).filter fun period =>
      (getCell g day period).isSome).length
  have hd : day < DAYS := List.mem_range.mp hday
  have hrow : ∀ p, getCell (compactGrid g) day p
      = (compactRow (g.getD day [])).getD p none := by
    intro p
    rw [getCell, getD_map_compactRow]
  have h1 : ((List.range PERIODS_PER_DAY).filter fun p =>
      (getCell (compactGrid g) day p).isSome)
      = (List.range PERIODS_PER_DAY).filter fun p =>
        ((compactRow (g.getD day [])).getD p none).isSome :=
    list_filter_congr _ _ _ fun p _ => congrArg Option.isSome (hrow p)
  rw [h1, filter_range_compactRow _ (wfGrid_wfRow g hwf day hd)]
  exact congrArg List.length (list_filter_congr _ _ _ fun p _ => rfl)

theorem occupiedCount_lookup_pass (classes : List Class) (s : Schedule)
    (k : String) (hwf : WFSched s) :
    occupiedCount (lookupD (compactSchedulePass classes s) k)
      = occupiedCount (lookupD s k) := by
  rw [lookupD_compactSchedulePass]
  split
  · exact occupiedCount_compactGrid _ (wfSched_lookupD s k hwf)
  · rfl

/-- The conflict-scan step at one slot for one class, named so the fold
can be reasoned about; `scanSlot` is definitionally this fold. -/
def scanStep (t : Timetable) (day period : Nat)
    (acc : List (String × List String) × List (String × Nat × Nat)) (c : Class) :
    List (String × List String) × List (String × Nat × Nat) :=
  match getCell (lookupD t.schedule c.name) day period with
  | none => acc
  | some lesson =>
    let acc1 :=
      if !(lesson.teacher.isAvailable day period) then
        (acc.1, acc.2 ++ [(c.name, day, period)])
      else acc
    match acc1.1.find? fun e => e.1 == lesson.teacher.name with
    | none => (acc1.1 ++ [(lesson.teacher.name, [c.name])], acc1.2)
    | some e =>
      let lst := e.2 ++ [c.name]
      (updTM acc1.1 lesson.teacher.name lst,
       acc1.2 ++ (lst.drop 1).map fun cn => (cn, day, period))

theorem scanSlot_eq_fold (t : Timetable) (day period : Nat) :
    scanSlot t day period
      = (t.classes.foldl (scanStep t day period) ([], [])).2 := rfl

/-- One conflict-scan step keeps every recorded conflict keyed by a
class name, and every teacher-map entry listing only class names. -/
theorem scanStep_inv (t : Timetable) (day period : Nat)
    (acc : List (String × List String) × List (String × Nat × Nat)) (c : Class)
    (hc : c ∈ t.classes)
    (h2 : ∀ e ∈ acc.2, ∃ cc ∈ t.classes, e.1 = cc.name)
    (h1 : ∀ m ∈ acc.1, ∀ nm ∈ m.2, ∃ cc ∈ t.classes, nm = cc.name) :
    (∀ e ∈ (scanStep t day period acc c).2, ∃ cc ∈ t.classes, e.1 = cc.name)
    ∧ ∀ m ∈ (scanStep t day period acc c).1, ∀ nm ∈ m.2,
        ∃ cc ∈ t.classes, nm = cc.name := by
  simp only [scanStep]
  split
  · exact ⟨h2, h1⟩
  · rename_i lesson hle
    have haux2 : ∀ e ∈ (if !(lesson.teacher.isAvailable day period) then
        (acc.1, acc.2 ++ [(c.name, day, period)]) else acc).2,
        ∃ cc ∈ t.classes, e.1 = cc.name := by
      split
      · intro e he
        rcases List.mem_append.mp he with h | h
        · exact h2 e h
        · rw [List.mem_singleton.mp h]
          exact ⟨c, hc, rfl⟩
      · exact h2
    have haux1 : ∀ m ∈ (if !(lesson.teacher.isAvailable day period) then
        (acc.1, acc.2 ++ [(c.name, day, period)]) else acc).1,
        ∀ nm ∈ m.2, ∃ cc ∈ t.classes, nm = cc.name := by
      split
      · exact h1
      · exact h1
    split
    · refine ⟨haux2, fun m hm nm hnm => ?_⟩
      rcases List.mem_append.mp hm with h | h
      · exact haux1 m h nm hnm
      · rw [List.mem_singleton.mp h] at hnm
        rw [List.mem_singleton.mp hnm]
        exact ⟨c, hc, rfl⟩
    · rename_i e hfind
      have he_mem := List.mem_of_find?_eq_some hfind
      have helem : ∀ nm ∈ e.2 ++ [c.name], ∃ cc ∈ t.classes, nm = cc.name := by
        intro nm hnm
        rcases List.mem_append.mp hnm with h | h
        · exact haux1 e he_mem nm h
        · rw [List.mem_singleton.mp h]
          exact ⟨c, hc, rfl⟩
      constructor
      · intro e' he'
        rcases List.mem_append.mp he' with h | h
        · exact haux2 e' h
        · obtain ⟨cn, hcn, heq⟩ := List.mem_map.mp h
          rw [← heq]
          exact helem cn (List.mem_of_mem_drop hcn)
      · intro m hm nm hnm
        rw [updTM] at hm
        obtain ⟨m0, hm0, heq⟩ := List.mem_map.mp hm
        by_cases hk : (m0.1 == lesson.teacher.name) = true
        · rw [if_pos hk] at heq
          rw [← heq] at hnm
          exact helem nm hnm
        · rw [if_neg hk] at heq
          rw [← heq] at hnm
          exact haux1 m0 hm0 nm hnm

/-- Every conflict the scan reports is keyed by the name of one of the
timetable's classes. -/
theorem scanSlot_names (t : Timetable) (day period : Nat) :
    ∀ e ∈ scanSlot t day period, ∃ cc ∈ t.classes, e.1 = cc.name := by
  rw [scanSlot_eq_fold]
  suffices h : ∀ (l : List Class), (∀ c ∈ l, c ∈ t.classes) →
      ∀ acc : List (String × List String) × List (String × Nat × Nat),
      (∀ e ∈ acc.2, ∃ cc ∈ t.classes, e.1 = cc.name) →
      (∀ m ∈ acc.1, ∀ nm ∈ m.2, ∃ cc ∈ t.classes, nm = cc.name) →
      ∀ e ∈ (l.foldl (scanStep t day period) acc).2,
        ∃ cc ∈ t.classes, e.1 = cc.name by
    exact h t.classes (fun c hc => hc) ([], [])
      (fun e he => absurd he (List.not_mem_nil e))
      (fun m hm => absurd hm (List.not_mem_nil m))
  intro l
  induction l with
  | nil =>
    intro _ acc h2 h1 e he
    exact h2 e he
  | cons c cs ih =>
    intro hsub acc h2 h1
    rw [List.foldl_cons]
    have hstep := scanStep_inv t day period acc c (hsub c (by simp)) h2 h1
    exact ih (fun c' hc' => hsub c' (by simp [hc'])) _ hstep.1 hstep.2

theorem conflictScan_names (t : Timetable) :
    ∀ e ∈ conflictScan t, ∃ cc ∈ t.classes, e.1 = cc.name := by
  intro e he
  rw [conflictScan] at he
  obtain ⟨day, _, hmem⟩ := List.mem_flatMap.mp he
  obtain ⟨period, _, hmem2⟩ := List.mem_flatMap.mp hmem
  exact scanSlot_names t day period e hmem2

/-! ### The rebuild queue: length and membership -/

theorem foldl_add_init (l : List Lesson) (g : Lesson → Nat) (init : Nat) :
    l.foldl (fun s x => s + g x) init = init + (l.map g).sum := by
  induction l generalizing init with
  | nil => simp
  | cons a l ih =>
    rw [List.foldl_cons, ih, List.map_cons, List.sum_cons]
    omega

theorem length_expandLessons (lessons : List Lesson) :
    (expandLessons lessons).length
      = lessons.foldl (fun sum l => sum + l.periodsPerWeek) 0 := by
  rw [expandLessons, List.length_flatMap, foldl_add_init, Nat.zero_add]
  congr 1
  refine List.map_congr_left fun l _ => ?_
  exact List.length_replicate ..

theorem length_insertByKey (key : Lesson → Nat) (x : Lesson) (l : List Lesson) :
    (insertByKey key x l).length = l.length + 1 := by
  induction l with
  | nil => rfl
  | cons y ys ih =>
    rw [insertByKey]
    split
    · rw [List.length_cons, ih, List.length_cons]
    · rw [List.length_cons, List.length_cons]

theorem length_sortByKey (key : Lesson → Nat) (l : List Lesson) :
    (sortByKey key l).length = l.length := by
  induction l with
  | nil => rfl
  | cons x xs ih =>
    rw [sortByKey, length_insertByKey, ih, List.length_cons]

/-- The queue the class rebuild re-places has exactly
`getTotalPeriodsPerWeek` entries. -/
theorem length_initQueue (cls : Class) :
    (initQueue cls).length = cls.getTotalPeriodsPerWeek := by
  rw [initQueue, length_sortByKey, length_expandLessons,
    Class.getTotalPeriodsPerWeek]

theorem mem_sortByKey (key : Lesson → Nat) (l : List Lesson) :
    ∀ z ∈ sortByKey key l, z ∈ l := by
  induction l with
  | nil => intro z hz; exact hz
  | cons x xs ih =>
    intro z hz
    rw [sortByKey] at hz
    rcases mem_insertByKey key x _ z hz with h | h
    · simp [h]
    · simp [ih z h]

theorem mem_expandLessons (lessons : List Lesson) :
    ∀ z ∈ expandLessons lessons, z ∈ lessons := by
  intro z hz
  rw [expandLessons] at hz
  obtain ⟨l, hl, hmem⟩ := List.mem_flatMap.mp hz
  rw [List.eq_of_mem_replicate hmem]
  exact hl

theorem mem_initQueue (cls : Class) :
    ∀ z ∈ initQueue cls, z ∈ cls.lessons := fun z hz =>
  mem_expandLessons cls.lessons z (mem_sortByKey slotsKey _ z hz)

/-- A lesson whose teacher's available slots all lie inside the 5 × 6
grid — the documented data-model invariant for availabilities. -/
def AvailOK (l : Lesson) : Prop :=
  ∀ sl ∈ l.teacher.getAvailableSlots,
    sl.day < DAYS ∧ sl.period < PERIODS_PER_DAY

/-- One rebuild step places its lesson iff the class grid is not full:
the occupied count moves from `n` to `min (n + 1) 30`, other keys are
untouched. -/
theorem rebuildStep_count (orig : Timetable) (className : String)
    (acc : Schedule × Bool × Rng) (lesson : Lesson)
    (hwf : WFSched acc.1) (hkey : hasKey acc.1 className = true)
    (hav : AvailOK lesson) :
    occupiedCount (lookupD (rebuildStep orig className acc lesson).1 className)
      = min (occupiedCount (lookupD acc.1 className) + 1) 30
    ∧ WFSched (rebuildStep orig className acc lesson).1
    ∧ hasKey (rebuildStep orig className acc lesson).1 className = true
    ∧ ∀ k, k ≠ className →
        lookupD (rebuildStep orig className acc lesson).1 k = lookupD acc.1 k := by
  have hG := wfSched_lookupD acc.1 className hwf
  simp only [rebuildStep]
  split
  · rename_i sl hfind
    have hpred := List.find?_some hfind
    simp only [Bool.and_eq_true] at hpred
    have hempty : getCell (lookupD acc.1 className) sl.day sl.period = none :=
      Option.isNone_iff_eq_none.mp hpred.1
    have hbounds := hav sl
      (mem_shuffleArray _ _ _ sl (List.mem_of_find?_eq_some hfind))
    have hocc := occupiedCount_setCell_some (lookupD acc.1 className)
      sl.day sl.period lesson hG hbounds.1 hbounds.2 hempty
    have hle30 := occupiedCount_le
      (setCell (lookupD acc.1 className) sl.day sl.period (some lesson))
    refine ⟨?_, wfSched_updA _ _ _ hwf (wfGrid_setCell _ _ _ _ hG), ?_, ?_⟩
    · rw [lookupD_updA_self _ _ _ hkey, hocc]
      omega
    · rw [hasKey_updA]
      exact hkey
    · intro k hk
      exact lookupD_updA_ne _ _ _ _ hk
  · split
    · rename_i sl hfind2
      have hpred := List.find?_some hfind2
      have hempty : getCell (lookupD acc.1 className) sl.day sl.period = none :=
        Option.isNone_iff_eq_none.mp hpred
      have hbounds := mem_allSlots_bounds sl (List.mem_of_find?_eq_some hfind2)
      have hocc := occupiedCount_setCell_some (lookupD acc.1 className)
        sl.day sl.period lesson hG hbounds.1 hbounds.2 hempty
      have hle30 := occupiedCount_le
        (setCell (lookupD acc.1 className) sl.day sl.period (some lesson))
      refine ⟨?_, wfSched_updA _ _ _ hwf (wfGrid_setCell _ _ _ _ hG), ?_, ?_⟩
      · rw [lookupD_updA_self _ _ _ hkey, hocc]
        omega
      · rw [hasKey_updA]
        exact hkey
      · intro k hk
        exact lookupD_updA_ne _ _ _ _ hk
    · rename_i hfind2
      have hnone := List.find?_eq_none.mp hfind2
      have hfull : ∀ day ∈ List.range DAYS, ∀ period ∈ List.range PERIODS_PER_DAY,
          (getCell (lookupD acc.1 className) day period).isSome = true := by
        intro day hd period hp
        have hnp := hnone ⟨day, period⟩
          (mem_allSlots day period (List.mem_range.mp hd) (List.mem_range.mp hp))
        cases hcell : getCell (lookupD acc.1 className) day period with
        | none =>
          exact absurd (show (getCell (lookupD acc.1 className) day period).isNone
            = true by rw [hcell]; rfl) hnp
        | some x =>
          rfl
      have h30 := occupiedCount_eq_30_of_full _ hfull
      refine ⟨?_, hwf, hkey, fun k hk => rfl⟩
      rw [h30]
      omega

/-- Folding the rebuild steps over a queue yields
`min (start + queue.length) 30` occupied cells for the class. -/
theorem rebuild_fold_count (orig : Timetable) (className : String)
    (q : List Lesson) (acc : Schedule × Bool × Rng)
    (hwf : WFSched acc.1) (hkey : hasKey acc.1 className = true)
    (hav : ∀ l ∈ q, AvailOK l) :
    occupiedCount (lookupD (q.foldl (rebuildStep orig className) acc).1 className)
      = min (occupiedCount (lookupD acc.1 className) + q.length) 30
    ∧ WFSched (q.foldl (rebuildStep orig className) acc).1
    ∧ ∀ k, k ≠ className →
        lookupD (q.foldl (rebuildStep orig className) acc).1 k
          = lookupD acc.1 k := by
  revert hwf hkey hav
  induction q generalizing acc with
  | nil =>
    intro hwf hkey _
    refine ⟨?_, hwf, fun k hk => rfl⟩
    have := occupiedCount_le (lookupD acc.1 className)
    simp only [List.foldl_nil, List.length_nil]
    omega
  | cons l q ih =>
    intro hwf hkey hav
    rw [List.foldl_cons]
    have hstep := rebuildStep_count orig className acc l hwf hkey (hav l (by simp))
    have hih := ih (rebuildStep orig className acc l) hstep.2.1 hstep.2.2.1
      fun l' hl' => hav l' (by simp [hl'])
    refine ⟨?_, hih.2.1, fun k hk => (hih.2.2 k hk).trans (hstep.2.2.2 k hk)⟩
    rw [hih.1, hstep.1, List.length_cons]
    have h30 := occupiedCount_le (lookupD acc.1 className)
    omega

/-- The class rebuild of `mutate` leaves the rebuilt class with
`min (getTotalPeriodsPerWeek, 30)` occupied cells and every other class
unchanged. -/
theorem rebuildClass_count (orig tt : Timetable) (className : String) (rng : Rng)
    (hwf : WFSched tt.schedule) (hkey : hasKey tt.schedule className = true)
    (hav : ∀ l ∈ initQueue
      ((orig.classes.find? fun c => c.name == className).getD ⟨"", []⟩),
      AvailOK l) :
    occupiedCount (lookupD (rebuildClass orig tt className rng).1.schedule className)
      = min ((orig.classes.find? fun c =>
          c.name == className).getD ⟨"", []⟩).getTotalPeriodsPerWeek 30
    ∧ (rebuildClass orig tt className rng).1.classes = tt.classes
    ∧ ∀ k, k ≠ className →
        occupiedCount (lookupD (rebuildClass orig tt className rng).1.schedule k)
          = occupiedCount (lookupD tt.schedule k) := by
  have hwfc : WFSched (updA tt.schedule className emptyGrid) :=
    wfSched_updA _ _ _ hwf wfGrid_empty
  have hkeyc : hasKey (updA tt.schedule className emptyGrid) className = true := by
    rw [hasKey_updA]
    exact hkey
  have hfold := rebuild_fold_count orig className
    (initQueue ((orig.classes.find? fun c => c.name == className).getD ⟨"", []⟩))
    (updA tt.schedule className emptyGrid, true, rng) hwfc hkeyc hav
  have hclear := lookupD_updA_self tt.schedule className emptyGrid hkey
  simp only [rebuildClass]
  refine ⟨?_, trivial, ?_⟩
  · rw [occupiedCount_lookup_pass tt.classes _ className hfold.2.1, hfold.1,
      hclear, show occupiedCount emptyGrid = 0 from rfl, length_initQueue]
    omega
  · intro k hk
    rw [occupiedCount_lookup_pass tt.classes _ k hfold.2.1, hfold.2.2 k hk,
      lookupD_updA_ne _ _ _ _ hk]

theorem getCell_emptyGrid (day period : Nat) :
    getCell emptyGrid day period = none := by
  rw [getCell]
  have hrow : List.getD emptyGrid day [] = [] ∨
      List.getD emptyGrid day [] = List.replicate PERIODS_PER_DAY none := by
    rcases lt_or_ge day DAYS with hd | hd
    · right
      rw [List.getD_eq_getElem _ _ (by simpa using hd)]
      simp only [emptyGrid]
      rw [List.getElem_replicate]
    · left
      rw [List.getD_eq_default _ _ (by simpa using hd)]
  rcases hrow with h | h
  · rw [h]
    rfl
  · rw [h]
    rcases lt_or_ge period PERIODS_PER_DAY with hp | hp
    · rw [List.getD_eq_getElem _ _ (by simpa using hp), List.getElem_replicate]
    · rw [List.getD_eq_default _ _ (by simpa using hp)]

theorem moveLesson_classes (orig tt : Timetable) (className : String)
    (day period : Nat) :
    (moveLessonToAvailableSlot orig tt className day period).1.classes
      = tt.classes := by
  rw [moveLessonToAvailableSlot]
  split
  · rfl
  · split
    · rfl
    · rfl

/-- `moveLessonToAvailableSlot` never changes any class's occupied-cell
count: it clears one occupied cell and fills one empty cell. -/
theorem moveLesson_count (orig tt : Timetable) (className : String)
    (day period : Nat) (hwf : WFSched tt.schedule) (k : String) :
    occupiedCount (lookupD
      (moveLessonToAvailableSlot orig tt className day period).1.schedule k)
      = occupiedCount (lookupD tt.schedule k) := by
  have hG := wfSched_lookupD tt.schedule className hwf
  simp only [moveLessonToAvailableSlot]
  split
  · rfl
  · rename_i lesson hle
    split
    · rename_i sl hsl
      have hpred := List.find?_some hsl
      simp only [Bool.and_eq_true] at hpred
      have hempty : getCell (lookupD tt.schedule className) sl.day sl.period
          = none := Option.isNone_iff_eq_none.mp hpred.1.1
      have hbounds := mem_allSlots_bounds sl (List.mem_of_find?_eq_some hsl)
      have hdp := getCell_some_bounds (lookupD tt.schedule className) day period
        hG (by rw [hle]; rfl)
      have hne : day ≠ sl.day ∨ period ≠ sl.period := by
        by_contra hcon
        push_neg at hcon
        rw [hcon.1, hcon.2, hempty] at hle
        cases hle
      have hwl1 : WFGrid (setCell (lookupD tt.schedule className)
          sl.day sl.period (some lesson)) := wfGrid_setCell _ _ _ _ hG
      have h1 := occupiedCount_setCell_some (lookupD tt.schedule className)
        sl.day sl.period lesson hG hbounds.1 hbounds.2 hempty
      have hcell1 : getCell (setCell (lookupD tt.schedule className)
          sl.day sl.period (some lesson)) day period = some lesson := by
        rw [getCell_setCell_ne _ _ _ _ _ _ hne, hle]
      have h2 := occupiedCount_setCell_none
        (setCell (lookupD tt.schedule className) sl.day sl.period (some lesson))
        day period hwl1 hdp.1 hdp.2 (by rw [hcell1]; rfl)
      rw [occupiedCount_lookup_pass _ _ _
        (wfSched_updA _ _ _ hwf (wfGrid_setCell _ _ _ _ hwl1))]
      by_cases hk : k = className
      · have hhk : hasKey tt.schedule className = true := by
          cases hh : hasKey tt.schedule className
          · rw [lookupD_of_not_hasKey tt.schedule className hh,
              getCell_emptyGrid] at hle
            cases hle
          · rfl
        rw [hk, lookupD_updA_self _ _ _ hhk]
        omega
      · rw [lookupD_updA_ne _ _ _ _ hk]
    · rfl

/-- cell counts through `randomMutation`: the two swap branches only
permute occupied cells. -/
theorem counts_randomMutation (t : Timetable) (rng : Rng) (hwf : WFT t) :
    ∀ c ∈ t.classes,
      occupiedCount (lookupD (t.randomMutation rng).1.schedule c.name)
        = occupiedCount (lookupD t.schedule c.name) := by
  intro c hc
  exact occupiedCount_of_pattern _ _ ((randomMutation_pattern t rng hwf).2 c hc)

/-- The rebuild branch of `mutate`, taken with any conflict entry naming
one of the timetable's classes, restores that class to
`min (total, 30)` occupied cells and leaves the others alone; under the
constructor's count invariant this is count-preserving. -/
theorem counts_rebuild_branch (t clone : Timetable) (cn : String) (rng : Rng)
    (hwfc : WFSched clone.schedule)
    (hkeys : clone.schedule.map Prod.fst = t.classes.map Class.name)
    (hclook : ∀ c ∈ t.classes,
      lookupD clone.schedule c.name = lookupD t.schedule c.name)
    (hex : ∃ cc ∈ t.classes, cn = cc.name)
    (hav : ∀ c ∈ t.classes, ∀ l ∈ c.lessons, AvailOK l)
    (hcount : ∀ c ∈ t.classes,
      classCount t c.name = min c.getTotalPeriodsPerWeek 30) :
    ∀ c ∈ t.classes,
      occupiedCount (lookupD (rebuildClass t clone cn rng).1.schedule c.name)
        = occupiedCount (lookupD t.schedule c.name) := by
  obtain ⟨cc, hccmem, hccname⟩ := hex
  have hfs : (t.classes.find? fun c => c.name == cn).isSome = true :=
    List.find?_isSome.mpr ⟨cc, hccmem, beq_iff_eq.mpr hccname.symm⟩
  obtain ⟨cf, hcf⟩ := Option.isSome_iff_exists.mp hfs
  have hcfmem := List.mem_of_find?_eq_some hcf
  have hcfpred := List.find?_some hcf
  have hcfname : cf.name = cn := beq_iff_eq.mp hcfpred
  have hkeyc : hasKey clone.schedule cn = true := by
    rw [hasKey_iff_keys, hkeys]
    exact List.mem_map.mpr ⟨cf, hcfmem, hcfname⟩
  have havq : ∀ l ∈ initQueue
      ((t.classes.find? fun c => c.name == cn).getD ⟨"", []⟩), AvailOK l := by
    intro l hl
    rw [hcf] at hl
    exact hav cf hcfmem l (mem_initQueue _ l hl)
  have hrb := rebuildClass_count t clone cn rng hwfc hkeyc havq
  intro c hc
  by_cases hcn : c.name = cn
  · rw [hcn, hrb.1, hcf]
    have h2 := hcount cf hcfmem
    rw [classCount, hcfname] at h2
    exact h2.symm
  · rw [hrb.2.2 c.name hcn]
    exact congrArg occupiedCount (hclook c hc)

/-- C5 counterexample ingredients: a class with a single once-a-week
lesson whose teacher is never available, and a schedule holding two
copies of that lesson. -/
def teacherNever : Teacher := ⟨"T0", ⟨5, 6, [0, 0, 0, 0, 0]⟩⟩

def lessonX : Lesson := ⟨"X", teacherNever, 1⟩

def clsBad : Class := ⟨"CB", [lessonX]⟩

def gridBad : Grid :=
  [some lessonX, some lessonX, none, none, none, none]
    :: List.replicate 4 (List.replicate 6 (none : Option Lesson))

def badT : Timetable := ⟨[clsBad], [("CB", gridBad)]⟩

/-- C5: the claim as stated — `mutate` preserves every class's
occupied-cell count on every input schedule — is false: on a schedule
holding two copies of a once-a-week lesson of a never-available
teacher, the conflict-repair rebuild re-places the class from its
lesson list and returns one occupied cell where the input had two. -/
theorem C5_count_counterexample :
    ¬ ∀ (t : Timetable) (rng : Rng), ∀ c ∈ t.classes,
      classCount (t.mutate rng).1 c.name = classCount t c.name := by
  intro h
  have hb := h badT rngZero clsBad (by with_unfolding_all decide)
  have h1 : classCount (badT.mutate rngZero).1 clsBad.name = 1 := by
    with_unfolding_all decide
  have h2 : classCount badT clsBad.name = 2 := by
    with_unfolding_all decide
  rw [h1, h2] at hb
  cases hb

/-- C5 (amended): for every well-formed timetable whose teachers'
available slots lie inside the 5 × 6 grid and whose classes each hold
exactly `min (getTotalPeriodsPerWeek, 30)` occupied cells — the
invariant the constructor establishes — `mutate` preserves every
class's occupied-cell count: random mutations swap occupied cells,
relocation fills one cell and clears one, and a class rebuild re-places
the full lesson queue, restoring `min (total, 30)` cells. -/
theorem C5_mutate_preserves_classCount (t : Timetable) (rng : Rng)
    (hwf : WFT t)
    (hav : ∀ c ∈ t.classes, ∀ l ∈ c.lessons, AvailOK l)
    (hcount : ∀ c ∈ t.classes,
      classCount t c.name = min c.getTotalPeriodsPerWeek 30) :
    ∀ c ∈ t.classes, classCount (t.mutate rng).1 c.name = classCount t c.name := by
  intro c hc
  simp only [Timetable.mutate, classCount]
  split
  · exact counts_randomMutation t _ hwf c hc
  · split
    · rw [moveLesson_count t (t.clone rng).1 _ _ _ (wft_clone t rng).1 c.name]
      exact congrArg occupiedCount (clone_lookupD t rng hwf c hc)
    · split
      · rename_i hne hmv hrb
        refine counts_rebuild_branch t (t.clone rng).1 _ _ (wft_clone t rng).1
          ?_ (fun c' hc' => clone_lookupD t rng hwf c' hc') ?_ hav hcount c hc
        · have h := (wft_clone t rng).2
          rw [clone_classes] at h
          exact h
        · have hlen : 0 < (conflictScan (t.clone rng).1).length := by
            cases hcs : conflictScan (t.clone rng).1
            · rw [hcs] at hne
              exact absurd rfl hne
            · simp
          have hmem := getD_mem (conflictScan (t.clone rng).1)
            (randFloor (t.clone rng).2.next.1
              (conflictScan (t.clone rng).1).length) ("", 0, 0)
            (randFloor_lt _ _ hlen)
          obtain ⟨cc, hccm, hccn⟩ := conflictScan_names (t.clone rng).1 _ hmem
          rw [clone_classes] at hccm
          exact ⟨cc, hccm, hccn⟩
      · exact counts_randomMutation t _ hwf c hc

/-- A well-formed concrete timetable satisfying the count invariant:
class `C1` with three weekly periods, three occupied cells. -/
def wGrid : Grid :=
  [some mathEx, some mathEx, some engEx, none, none, none]
    :: List.replicate 4 (List.replicate 6 (none : Option Lesson))

def wT : Timetable := ⟨[clsEx], [("C1", wGrid)]⟩

theorem C5_mutate_preserves_classCount_witness :
    classCount (wT.mutate rngZero).1 clsEx.name = classCount wT clsEx.name :=
  C5_mutate_preserves_classCount wT rngZero
    ⟨(by decide : ∀ e ∈ wT.schedule,
        e.2.length = DAYS ∧ ∀ row ∈ e.2, row.length = PERIODS_PER_DAY),
     (by decide : wT.schedule.map Prod.fst = wT.classes.map Class.name)⟩
    (by decide : ∀ c ∈ wT.classes, ∀ l ∈ c.lessons,
        ∀ sl ∈ l.teacher.getAvailableSlots,
          sl.day < DAYS ∧ sl.period < PERIODS_PER_DAY)
    (by with_unfolding_all decide)
    clsEx (by decide)

/-! ### The simulated-annealing driver (`Scheduler`) -/

/-- The scheduler configuration (class `Scheduler`). -/
structure Scheduler where
  classes : List Class
  maxIterations : Nat
  maxStagnantIterations : Nat

/-- `coolingRate = 0.998`. -/
def coolingRate : ℚ := mkRat 998 1000

/-- `minTemperature = 0.0001`. -/
def minTemperature : ℚ := mkRat 1 10000

/-- `Scheduler.calculateAcceptanceProbability`; `mexp` stands for the
real-valued `Math.exp`, a parameter of the embedding. -/
def calculateAcceptanceProbability (mexp : ℚ → ℚ)
    (currentFitness newFitness temperature : ℚ) : ℚ :=
  if newFitness < currentFitness then 1
  else mexp ((currentFitness - newFitness) / temperature)

/-- The mutable loop state of `generateTimetable`. -/
structure SAState where
  current : Timetable
  currentFitness : ℚ
  best : Timetable
  bestFitness : ℚ
  temperature : ℚ
  stagnant : Nat
  rng : Rng

/-- `n` successive `mutate` calls (the restart and aggressive-mutation
inner loops). -/
def mutateN : Nat → Timetable → Rng → Timetable × Rng
  | 0, t, rng => (t, rng)
  | Nat.succ n, t, rng =>
    let m := Timetable.mutate t rng
    mutateN n m.1 m.2

/-- The tail of one annealing iteration after the acceptance phase:
adaptive restart when stuck with conflicts (`stagnant > maxStagnant/2`,
a JS float division, i.e. `maxStagnant < 2 * stagnant`), stagnation
stop, otherwise cooling.  Returns the new state and whether the loop
`break`s. -/
def afterAccept (maxStagnant : Nat) (s : SAState) : SAState × Bool :=
  if maxStagnant < 2 * s.stagnant ∧ 0 < s.bestFitness then
    let cl := Timetable.clone s.best s.rng
    let m := mutateN 10 cl.1 cl.2
    (⟨m.1, calculateFitness m.1, s.best, s.bestFitness,
      min (mkRat 1 2) (s.temperature * 2) * coolingRate, 0, m.2⟩, false)
  else if maxStagnant ≤ s.stagnant then (s, true)
  else ({ s with temperature := s.temperature * coolingRate }, false)

/-- One iteration of the annealing `for` body: mutate, skip on empty
space (`continue` also skips the cooling), accept improvements (cloning
into `best` and breaking at fitness `0`), otherwise draw the Metropolis
acceptance. -/
def annealStep (mexp : ℚ → ℚ) (maxStagnant : Nat) (s : SAState) :
    SAState × Bool :=
  let mres := Timetable.mutate s.current s.rng
  let mutatedFitness := calculateFitness mres.1
  if 0 < Timetable.countEmptySpacePenalty mres.1 then
    ({ s with rng := mres.2 }, false)
  else if mutatedFitness < s.currentFitness then
    if mutatedFitness < s.bestFitness then
      let cl := Timetable.clone mres.1 mres.2
      let s1 : SAState :=
        ⟨mres.1, mutatedFitness, cl.1, mutatedFitness, s.temperature, 0, cl.2⟩
      if mutatedFitness = 0 then (s1, true)
      else afterAccept maxStagnant s1
    else
      afterAccept maxStagnant
        { s with
          current := mres.1
          currentFitness := mutatedFitness
          stagnant := s.stagnant + 1
          rng := mres.2 }
  else
    let q := mres.2.next
    if q.1 < calculateAcceptanceProbability mexp s.currentFitness mutatedFitness
        s.temperature then
      afterAccept maxStagnant
        { s with
          current := mres.1
          currentFitness := mutatedFitness
          stagnant := s.stagnant + 1
          rng := q.2 }
    else
      afterAccept maxStagnant { s with stagnant := s.stagnant + 1, rng := q.2 }

/-- The annealing `for` loop of `generateTimetable`: guard
`i < maxIterations && temperature > minTemperature`, body `annealStep`.
`n` counts the iterations whose body ran. -/
def annealLoop (mexp : ℚ → ℚ) (maxStagnant : Nat) :
    Nat → SAState → Nat → SAState × Nat
  | 0, s, n => (s, n)
  | Nat.succ fuel, s, n =>
    if minTemperature < s.temperature then
      let st := annealStep mexp maxStagnant s
      if st.2 then (st.1, n + 1)
      else annealLoop mexp maxStagnant fuel st.1 (n + 1)
    else (s, n)

/-- The targeted conflict-elimination pass (2000 iterations, aggressive
5-fold mutation every 500). -/
def conflictLoop : Nat → Nat → Timetable → ℚ → Rng → Timetable × ℚ × Rng
  | 0, _, cb, score, rng => (cb, score, rng)
  | Nat.succ fuel, i, cb, score, rng =>
    if 0 < score then
      let mres := Timetable.mutate cb rng
      let conflicts := Timetable.countTeacherConflicts mres.1
      if conflicts ≤ score ∧ Timetable.countEmptySpacePenalty mres.1 = 0 then
        if conflicts = 0 then (mres.1, conflicts, mres.2)
        else if i % 500 = 0 ∧ 0 < i ∧ 0 < conflicts then
          let m5 := mutateN 5 mres.1 mres.2
          conflictLoop fuel (i + 1) m5.1 (Timetable.countTeacherConflicts m5.1) m5.2
        else conflictLoop fuel (i + 1) mres.1 conflicts mres.2
      else if i % 500 = 0 ∧ 0 < i ∧ 0 < score then
        let m5 := mutateN 5 cb mres.2
        conflictLoop fuel (i + 1) m5.1 (Timetable.countTeacherConflicts m5.1) m5.2
      else conflictLoop fuel (i + 1) cb score mres.2
    else (cb, score, rng)

/-- `generateTimetable` up to the end of the annealing loop: construct,
clone into `best`, then loop with fuel `maxIterations * 5` and stagnant
bound `maxStagnantIterations * 3`.  Returns the final state and the
number of iterations that ran. -/
def Scheduler.generateRun (mexp : ℚ → ℚ) (sch : Scheduler) (rng : Rng) :
    SAState × Nat :=
  let cur := Timetable.new sch.classes rng
  let fit := calculateFitness cur.1
  let cl := Timetable.clone cur.1 cur.2
  annealLoop mexp (sch.maxStagnantIterations * 3) (sch.maxIterations * 5)
    ⟨cur.1, fit, cl.1, fit, 1, 0, cl.2⟩ 0

/-- `Scheduler.generateTimetable`: the annealing loop, the targeted
conflict pass when conflicts remain, and a final compaction. -/
def Scheduler.generateTimetable (mexp : ℚ → ℚ) (sch : Scheduler) (rng : Rng) :
    Timetable :=
  let run := Scheduler.generateRun mexp sch rng
  let s := run.1
  let best :=
    if 0 < Timetable.countTeacherConflicts s.best then
      let cl := Timetable.clone s.best s.rng
      (conflictLoop 2000 0 cl.1 (Timetable.countTeacherConflicts s.best) cl.2).1
    else s.best
  Timetable.compactSchedule best

/-! ### C8: the best-so-far fitness is monotone through the loop -/

theorem afterAccept_best (maxStagnant : Nat) (s : SAState) :
    (afterAccept maxStagnant s).1.best = s.best
    ∧ (afterAccept maxStagnant s).1.bestFitness = s.bestFitness := by
  simp only [afterAccept]
  split
  · exact ⟨rfl, rfl⟩
  · split
    · exact ⟨rfl, rfl⟩
    · exact ⟨rfl, rfl⟩

/-- One annealing iteration either keeps `best` and its fitness, or
replaces it with a strictly better one; the recorded `bestFitness`
always is the fitness of `best`. -/
theorem annealStep_best (mexp : ℚ → ℚ) (maxStagnant : Nat) (s : SAState)
    (hb : s.bestFitness = calculateFitness s.best) :
    (((annealStep mexp maxStagnant s).1.best = s.best
        ∧ (annealStep mexp maxStagnant s).1.bestFitness = s.bestFitness)
      ∨ (annealStep mexp maxStagnant s).1.bestFitness < s.bestFitness)
    ∧ (annealStep mexp maxStagnant s).1.bestFitness
        = calculateFitness (annealStep mexp maxStagnant s).1.best := by
  simp only [annealStep]
  split
  · exact ⟨Or.inl ⟨rfl, rfl⟩, hb⟩
  · split
    · split
      · rename_i hpen himp hbest
        split
        · refine ⟨Or.inr hbest, ?_⟩
          exact (calculateFitness_clone _ _ (wft_mutate s.current s.rng)).symm
        · have ha := afterAccept_best maxStagnant
            ⟨(Timetable.mutate s.current s.rng).1,
             calculateFitness (Timetable.mutate s.current s.rng).1,
             ((Timetable.mutate s.current s.rng).1.clone
               (Timetable.mutate s.current s.rng).2).1,
             calculateFitness (Timetable.mutate s.current s.rng).1,
             s.temperature, 0,
             ((Timetable.mutate s.current s.rng).1.clone
               (Timetable.mutate s.current s.rng).2).2⟩
          refine ⟨Or.inr ?_, ?_⟩
          · rw [ha.2]
            exact hbest
          · rw [ha.2, ha.1]
            exact (calculateFitness_clone _ _ (wft_mutate s.current s.rng)).symm
      · have ha := afterAccept_best maxStagnant
          { s with
            current := (Timetable.mutate s.current s.rng).1
            currentFitness := calculateFitness (Timetable.mutate s.current s.rng).1
            stagnant := s.stagnant + 1
            rng := (Timetable.mutate s.current s.rng).2 }
        refine ⟨Or.inl ⟨ha.1, ha.2⟩, ?_⟩
        rw [ha.2, ha.1]
        exact hb
    · split
      · have ha := afterAccept_best maxStagnant
          { s with
            current := (Timetable.mutate s.current s.rng).1
            currentFitness := calculateFitness (Timetable.mutate s.current s.rng).1
            stagnant := s.stagnant + 1
            rng := ((Timetable.mutate s.current s.rng).2.next).2 }
        refine ⟨Or.inl ⟨ha.1, ha.2⟩, ?_⟩
        rw [ha.2, ha.1]
        exact hb
      · have ha := afterAccept_best maxStagnant
          { s with
            stagnant := s.stagnant + 1
            rng := ((Timetable.mutate s.current s.rng).2.next).2 }
        refine ⟨Or.inl ⟨ha.1, ha.2⟩, ?_⟩
        rw [ha.2, ha.1]
        exact hb

/-- Across any number of loop iterations the best fitness never
increases. -/
theorem annealLoop_best_le (mexp : ℚ → ℚ) (maxStagnant fuel : Nat)
    (s : SAState) (n : Nat)
    (hb : s.bestFitness = calculateFitness s.best) :
    (annealLoop mexp maxStagnant fuel s n).1.bestFitness ≤ s.bestFitness := by
  revert hb
  induction fuel generalizing s n with
  | zero =>
    intro _
    exact le_refl _
  | succ fuel ih =>
    intro hb
    simp only [annealLoop]
    split
    · have hstep := annealStep_best mexp maxStagnant s hb
      split
      · rcases hstep.1 with ⟨h1, h2⟩ | h
        · exact le_of_eq h2
        · exact le_of_lt h
      · have hrec := ih (annealStep mexp maxStagnant s).1 (n + 1) hstep.2
        rcases hstep.1 with ⟨h1, h2⟩ | h
        · rw [h2] at hrec
          exact hrec
        · exact le_trans hrec (le_of_lt h)
    · exact le_refl _

/-- C8: throughout the annealing loop the fitness of the best schedule
held so far is non-increasing — one iteration either keeps `best`
unchanged (with its fitness) or replaces it with one of strictly lower
fitness, and over any number of iterations the best fitness never
rises — given that the recorded `bestFitness` is the fitness of `best`,
the bookkeeping invariant the loop maintains from its initialisation. -/
theorem C8_best_fitness_monotone (mexp : ℚ → ℚ) (maxStagnant fuel n : Nat)
    (s : SAState) (hb : s.bestFitness = calculateFitness s.best) :
    (((annealStep mexp maxStagnant s).1.best = s.best
        ∧ (annealStep mexp maxStagnant s).1.bestFitness = s.bestFitness)
      ∨ (annealStep mexp maxStagnant s).1.bestFitness < s.bestFitness)
    ∧ (annealLoop mexp maxStagnant fuel s n).1.bestFitness ≤ s.bestFitness :=
  ⟨(annealStep_best mexp maxStagnant s hb).1,
   annealLoop_best_le mexp maxStagnant fuel s n hb⟩

/-- A concrete loop state satisfying the bookkeeping invariant. -/
def s8 : SAState := ⟨⟨[], []⟩, 0, ⟨[], []⟩, 0, 1, 0, rngZero⟩

theorem C8_best_fitness_monotone_witness :
    (((annealStep (fun _ => 1) 300 s8).1.best = s8.best
        ∧ (annealStep (fun _ => 1) 300 s8).1.bestFitness = s8.bestFitness)
      ∨ (annealStep (fun _ => 1) 300 s8).1.bestFitness < s8.bestFitness)
    ∧ (annealLoop (fun _ => 1) 300 3 s8 0).1.bestFitness ≤ s8.bestFitness :=
  C8_best_fitness_monotone (fun _ => 1) 300 3 0 s8 (by with_unfolding_all decide)

/-! ### C1: no seed — the output depends on the ambient stream -/

/-- A constant ambient stream distinct from the all-zeros one. -/
def rngThree : Rng := ⟨fun _ => mkRat 3 10, 0⟩

/-- A one-lesson configuration for concrete scheduler runs. -/
def cls1 : Class := ⟨"C1", [engEx]⟩

def sch1 : Scheduler := ⟨[cls1], 0, 0⟩

set_option maxRecDepth 10000 in
/-- C1: the claim is false as stated — `generateTimetable` takes no
seed; every call site draws from the ambient global `Math.random`
stream, and two runs of the same configuration over different ambient
streams return different schedules (the shuffled slot order changes the
day the lesson lands on). -/
theorem C1_global_rng_counterexample :
    ¬ ∀ (r1 r2 : Rng),
      Scheduler.generateTimetable (fun _ => 0) sch1 r1
        = Scheduler.generateTimetable (fun _ => 0) sch1 r2 := by
  intro h
  have hne : Scheduler.generateTimetable (fun _ => 0) sch1 rngZero
      ≠ Scheduler.generateTimetable (fun _ => 0) sch1 rngThree := by
    with_unfolding_all decide
  exact hne (h rngZero rngThree)

/-- C1 (amended): the schedule is a deterministic function of the
configuration and the ambient `Math.random` stream — runs that see the
same stream coincide; there is no seed parameter, so nothing weaker
than the whole ambient stream determines the output (see the
counterexample). -/
theorem C1_determined_by_ambient_stream (mexp : ℚ → ℚ) (sch : Scheduler)
    (r1 r2 : Rng) (h : r1 = r2) :
    Scheduler.generateTimetable mexp sch r1
      = Scheduler.generateTimetable mexp sch r2 := by
  rw [h]

theorem C1_determined_by_ambient_stream_witness :
    Scheduler.generateTimetable (fun _ => 0) sch1 rngZero
      = Scheduler.generateTimetable (fun _ => 0) sch1 rngZero :=
  C1_determined_by_ambient_stream (fun _ => 0) sch1 rngZero rngZero rfl

/-! ### C2: no feasibility validation — the loop always runs -/

theorem annealLoop_count_le (mexp : ℚ → ℚ) (maxStagnant fuel : Nat)
    (s : SAState) (n : Nat) :
    n ≤ (annealLoop mexp maxStagnant fuel s n).2 := by
  induction fuel generalizing s n with
  | zero => exact le_refl _
  | succ fuel ih =>
    simp only [annealLoop]
    split
    · split
      · exact Nat.le_succ n
      · exact le_trans (Nat.le_succ n) (ih _ (n + 1))
    · exact le_refl _

/-- An infeasible configuration: a twice-a-week lesson whose teacher
has zero available slots. -/
def lessonX2 : Lesson := ⟨"X2", teacherNever, 2⟩

def clsBad2 : Class := ⟨"CB2", [lessonX2]⟩

def sch2 : Scheduler := ⟨[clsBad2], 1, 100⟩

/-- C2: the claim is false as stated — the source has no
`InvalidConfig` error and performs no feasibility validation.  On a
configuration whose only lesson needs a teacher with zero available
slots, the constructor force-places the lesson into empty cells, the
annealing loop runs its iterations, and the infeasibility surfaces
only as a positive conflict count in the returned best timetable. -/
theorem C2_no_infeasibility_error :
    0 < (Scheduler.generateRun (fun _ => 0) sch2 rngZero).2
    ∧ 0 < Timetable.countTeacherConflicts
        (Scheduler.generateRun (fun _ => 0) sch2 rngZero).1.best := by
  refine ⟨?_, ?_⟩
  · with_unfolding_all decide
  · with_unfolding_all decide

/-- C2 (amended): generation never rejects a configuration: for every
scheduler with `maxIterations ≥ 1` — feasible or not — at least one
iteration of the annealing loop runs (the loop guard
`temperature > minTemperature` holds at entry since the temperature
starts at 1). -/
theorem C2_loop_always_entered (mexp : ℚ → ℚ) (sch : Scheduler) (rng : Rng)
    (h : 1 ≤ sch.maxIterations) :
    0 < (Scheduler.generateRun mexp sch rng).2 := by
  simp only [Scheduler.generateRun]
  obtain ⟨k, hk⟩ : ∃ k, sch.maxIterations * 5 = k + 1 :=
    ⟨sch.maxIterations * 5 - 1, by omega⟩
  rw [hk]
  simp only [annealLoop]
  split
  · split
    · omega
    · exact lt_of_lt_of_le (by omega : 0 < 0 + 1)
        (annealLoop_count_le mexp (sch.maxStagnantIterations * 3) k _ (0 + 1))
  · rename_i hguard
    exact absurd (show minTemperature < (1 : ℚ) by with_unfolding_all decide)
      hguard

theorem C2_loop_always_entered_witness :
    1 ≤ sch2.maxIterations
    ∧ 0 < (Scheduler.generateRun (fun _ => 0) sch2 rngZero).2 :=
  ⟨by decide, C2_loop_always_entered (fun _ => 0) sch2 rngZero (by decide)⟩

/-- A concrete availability: 2 days, 3 periods, day words `101b` and `010b`. -/
def availEx : Availability := ⟨2, 3, [5, 2]⟩

/-- Witness for C7: evaluates the theorem on `availEx`; its slot list is
`[(0,0), (0,2), (1,1)]`. -/
theorem C7_availableSlots_exact_witness :
    ((∀ day period : Nat,
        (⟨day, period⟩ : TimeSlot) ∈ availEx.getAvailableSlots ↔
          availEx.get day period = true)
      ∧ availEx.getAvailableSlots.Pairwise slotLt
      ∧ availEx.getAvailableSlots.Nodup)
    ∧ availEx.getAvailableSlots = [⟨0, 0⟩, ⟨0, 2⟩, ⟨1, 1⟩] :=
  ⟨C7_availableSlots_exact availEx (by decide) (by decide), by decide⟩

end TW
